import Mathlib

/-!
Verification development for the SAG ("Semantic Action Grammar") runtime,
a Python package (`src/sag/`).  The Python modules are shallowly embedded:
Python `str` values are Lean `String`s (or `List Char` where character-level
reasoning is needed), Python dicts with insertion order are association
lists, fallible Python code returns `Except`/`Option`, and machine floats
used by the expression evaluator are modelled by exact rationals (the
claims never depend on IEEE rounding).
-/

/-! ## Values (`sag/model.py` value universe)

Python `Any` values flowing through the message model are one of: `None`,
`bool`, `int`, `float`, `str`, `list`, `dict` — exactly the parse results
produced by `sag/visitor.py`.  A Python `dict` keeps insertion order, so it
is embedded as an association list. -/

inductive Value where
  | vNull
  | vBool (b : Bool)
  | vInt (n : Int)
  | vFloat (q : ℚ)
  | vStr (s : String)
  | vList (xs : List Value)
  | vObj (m : List (String × Value))
deriving Repr

mutual

def Value.beq : Value → Value → Bool
  | .vNull, .vNull => true
  | .vBool a, .vBool b => a == b
  | .vInt a, .vInt b => a == b
  | .vFloat a, .vFloat b => a == b
  | .vStr a, .vStr b => a == b
  | .vList xs, .vList ys => Value.beqList xs ys
  | .vObj xs, .vObj ys => Value.beqObj xs ys
  | _, _ => false

def Value.beqList : List Value → List Value → Bool
  | [], [] => true
  | x :: xs, y :: ys => Value.beq x y && Value.beqList xs ys
  | _, _ => false

def Value.beqObj : List (String × Value) → List (String × Value) → Bool
  | [], [] => true
  | (k1, v1) :: xs, (k2, v2) :: ys => k1 == k2 && Value.beq v1 v2 && Value.beqObj xs ys
  | _, _ => false

end

mutual

theorem Value.beq_iff : ∀ a b : Value, Value.beq a b = true ↔ a = b
  | .vNull, b => by cases b <;> simp [Value.beq]
  | .vBool a, b => by cases b <;> simp [Value.beq]
  | .vInt a, b => by cases b <;> simp [Value.beq]
  | .vFloat a, b => by cases b <;> simp [Value.beq]
  | .vStr a, b => by cases b <;> simp [Value.beq]
  | .vList xs, b => by
      cases b <;> simp [Value.beq]
      exact Value.beqList_iff xs _
  | .vObj xs, b => by
      cases b <;> simp [Value.beq]
      exact Value.beqObj_iff xs _

theorem Value.beqList_iff : ∀ xs ys : List Value, Value.beqList xs ys = true ↔ xs = ys
  | [], ys => by cases ys <;> simp [Value.beqList]
  | x :: xs, ys => by
      cases ys with
      | nil => simp [Value.beqList]
      | cons y ys =>
          simp [Value.beqList, Bool.and_eq_true, Value.beq_iff x y, Value.beqList_iff xs ys]

theorem Value.beqObj_iff : ∀ xs ys : List (String × Value), Value.beqObj xs ys = true ↔ xs = ys
  | [], ys => by cases ys <;> simp [Value.beqObj]
  | (k1, v1) :: xs, ys => by
      cases ys with
      | nil => simp [Value.beqObj]
      | cons y ys =>
          obtain ⟨k2, v2⟩ := y
          simp [Value.beqObj, Bool.and_eq_true, Value.beq_iff v1 v2, Value.beqObj_iff xs ys,
            and_assoc]

end

instance : DecidableEq Value := fun a b =>
  decidable_of_iff (Value.beq a b = true) (Value.beq_iff a b)

/-! ## Ordered-dict helpers

Python `dict` semantics used throughout the package: assigning to an
existing key keeps its position and replaces its value, assigning to a new
key appends it; `d.get(k)` looks the key up; `del d[k]` removes it. -/

def dictGet {α : Type} (m : List (String × α)) (k : String) : Option α :=
  (m.find? (fun p => p.1 = k)).map (·.2)

def dictGetD {α : Type} (m : List (String × α)) (k : String) (dflt : α) : α :=
  (dictGet m k).getD dflt

def dictSet {α : Type} (m : List (String × α)) (k : String) (v : α) : List (String × α) :=
  if m.any (fun p => p.1 = k) then
    m.map (fun p => if p.1 = k then (k, v) else p)
  else
    m ++ [(k, v)]

def dictDel {α : Type} (m : List (String × α)) (k : String) : List (String × α) :=
  m.filter (fun p => ¬ p.1 = k)

/-! ## Topic pattern matching (`sag/knowledge.py`, `topic_matches`)

The Python function works on `str`; character-level reasoning is easiest on
`List Char`, so the body is embedded on char lists (`topicMatchesL`) and
wrapped for `String`.  `p[:-n]` is `take (length - n)`, `startswith`/
`endswith` are `isPrefixOf`/`isSuffixOf`, `"." not in r` is `'.' ∉ r`. -/

def topicMatchesL (pattern topic : List Char) : Bool :=
  if pattern = topic then true
  else if pattern = ['*', '*'] then true
  else if List.isSuffixOf ['.', '*', '*'] pattern then
    let pre := pattern.take (pattern.length - 3)
    topic = pre || List.isPrefixOf (pre ++ ['.']) topic
  else if List.isSuffixOf ['.', '*'] pattern then
    let pre := pattern.take (pattern.length - 2)
    if ¬ List.isPrefixOf (pre ++ ['.']) topic then false
    else
      let remainder := topic.drop (pre.length + 1)
      ¬ remainder.contains '.'
  else false

def topic_matches (pattern topic : String) : Bool :=
  topicMatchesL pattern.toList topic.toList

/-! ## Substring test (Python `sub in s`) -/

def strContainsL (s sub : List Char) : Bool :=
  (List.range (s.length + 1)).any (fun i => sub.isPrefixOf (s.drop i))

def strContains (s sub : String) : Bool :=
  strContainsL s.toList sub.toList

/-! ## Message model (`sag/model.py`)

`sag/model.py` in the snapshot lacks the three knowledge-layer statement
dataclasses even though `sag/visitor.py`, `sag/knowledge.py` and
`sag/__init__.py` import them from it; their fields are reconstructed from
the spec (§3) and from every construction site. -/

structure Header where
  version : Int
  messageId : String
  source : String
  destination : String
  timestamp : Int
  correlation : Option String := none
  ttl : Option Int := none
deriving Repr

structure KnowledgeStatement where
  topic : String
  value : Value
  version : Int
deriving DecidableEq, Repr

/-- Modelled from the spec: `SubscribeStatement` is absent from the
snapshot's `model.py`; spec §3 gives `topic:string` (may contain
wildcards) and optional `filterExpr:string`, matching
`visitor.visitSubStmt`. -/
structure SubscribeStatement where
  topic : String
  filterExpr : Option String := none
deriving DecidableEq, Repr

/-- Modelled from the spec: `UnsubscribeStatement` is absent from the
snapshot's `model.py`; spec §3 gives `topic:string`, matching
`visitor.visitUnsubStmt`. -/
structure UnsubscribeStatement where
  topic : String
deriving DecidableEq, Repr

inductive Statement where
  | action (verb : String) (args : List Value) (namedArgs : List (String × Value))
      (policy policyExpr priority reason : Option String)
  | query (expression constraint : Option Value)
  | assertStmt (path : String) (value : Value)
  | control (condition : Option Value) (thenS elseS : Option Statement)
  | event (eventName : String) (args : List Value) (namedArgs : List (String × Value))
  | error (errorCode : String) (message : Option String)
  | fold (foldId : String) (summary : String) (state : Option (List (String × Value)))
  | recall (foldId : String)
  | sub (s : SubscribeStatement)
  | unsub (u : UnsubscribeStatement)
  | know (k : KnowledgeStatement)
deriving Repr

structure Message where
  header : Header
  statements : List Statement
deriving Repr

/-! ## Minifier (`sag/minifier.py`)

`_minify_statement` dispatches on the eight statement classes it knows and
falls through to `return ""` for anything else — in the source there is no
branch for Subscribe/Unsubscribe/Knowledge statements. -/

/-- The five escapes of `_escape_string`, applied via sequential
`str.replace`; the sequential passes compose to this per-character map. -/
def escapeChar (c : Char) : String :=
  if c = '\\' then "\\\\"
  else if c = '"' then "\\\""
  else if c = '\n' then "\\n"
  else if c = '\r' then "\\r"
  else if c = '\t' then "\\t"
  else String.singleton c

def escapeString (s : String) : String :=
  String.join (s.toList.map escapeChar)

/-- Stand-in for CPython `str(float)` (shortest round-trip printing of an
IEEE double).  The exact digit string is not modelled — no theorem below
depends on a float's printed form. -/
def floatRepr (q : ℚ) : String :=
  toString q.num ++ "/" ++ toString q.den

mutual

def minifyValue : Value → String
  | .vNull => "null"
  | .vBool b => if b then "true" else "false"
  | .vInt n => toString n
  | .vFloat q => floatRepr q
  | .vStr s => "\"" ++ escapeString s ++ "\""
  | .vList xs => "[" ++ minifyValueList xs ++ "]"
  | .vObj m => "\x7b" ++ minifyValueObj m ++ "\x7d"

def minifyValueList : List Value → String
  | [] => ""
  | [x] => minifyValue x
  | x :: xs => minifyValue x ++ "," ++ minifyValueList xs

def minifyValueObj : List (String × Value) → String
  | [] => ""
  | [(k, v)] => "\"" ++ escapeString k ++ "\":" ++ minifyValue v
  | (k, v) :: xs => "\"" ++ escapeString k ++ "\":" ++ minifyValue v ++ "," ++ minifyValueObj xs

end

/-- Python `str()` as applied by the `f"Q {query.expression}"` style
f-strings in `_minify_query`/`_minify_control`.  Exact for `None` and
scalar strings/ints/bools; approximate for containers and floats (no
theorem depends on those branches). -/
def pyStr : Value → String
  | .vNull => "None"
  | .vBool b => if b then "True" else "False"
  | .vInt n => toString n
  | .vStr s => s
  | v => minifyValue v

def pyStrOpt : Option Value → String
  | none => "None"
  | some v => pyStr v

/-- Comma-joining of positional then named arguments, as done by the
index-based comma insertion in `_minify_action`/`_minify_event`. -/
def minifyArgs (args : List Value) (named : List (String × Value)) : String :=
  String.intercalate ","
    (args.map minifyValue ++ named.map (fun p => p.1 ++ "=" ++ minifyValue p.2))

mutual

def minifyStatement : Statement → String
  | .action verb args named policy policyExpr priority reason =>
      "DO " ++ verb ++ "(" ++ minifyArgs args named ++ ")"
        ++ (match policy with
            | none => ""
            | some p =>
                " P:" ++ p ++ (match policyExpr with
                               | none => ""
                               | some pe => ":" ++ pe))
        ++ (match priority with
            | none => ""
            | some pr => " PRIO=" ++ pr)
        ++ (match reason with
            | none => ""
            | some r =>
                " BECAUSE " ++
                  (if strContains r ">" || strContains r "<" ||
                      strContains r "==" || strContains r "!=" then r
                   else "\"" ++ escapeString r ++ "\""))
  | .query e c =>
      "Q " ++ pyStrOpt e ++ (match c with
                             | none => ""
                             | some cv => " WHERE " ++ pyStr cv)
  | .assertStmt path value => "A " ++ path ++ " = " ++ minifyValue value
  | .control cond t e =>
      "IF " ++ pyStrOpt cond ++ " THEN " ++ minifyStatementOpt t
        ++ (match e with
            | none => ""
            | some es => " ELSE " ++ minifyStatement es)
  | .event name args named => "EVT " ++ name ++ "(" ++ minifyArgs args named ++ ")"
  | .error code msg =>
      "ERR " ++ code ++ (match msg with
                         | none => ""
                         | some m => " \"" ++ escapeString m ++ "\"")
  | .fold foldId summary st =>
      "FOLD " ++ foldId ++ " \"" ++ escapeString summary ++ "\""
        ++ (match st with
            | none => ""
            | some s => " STATE " ++ minifyValue (.vObj s))
  | .recall foldId => "RECALL " ++ foldId
  | _ => ""

def minifyStatementOpt : Option Statement → String
  | none => ""
  | some s => minifyStatement s

end

namespace MessageMinifier

def to_minified_string (m : Message) : String :=
  let h := m.header
  "H v " ++ toString h.version ++ " id=" ++ h.messageId ++ " src=" ++ h.source
    ++ " dst=" ++ h.destination ++ " ts=" ++ toString h.timestamp
    ++ (match h.correlation with
        | none => ""
        | some c => " corr=" ++ c)
    ++ (match h.ttl with
        | none => ""
        | some t => " ttl=" ++ toString t)
    ++ "\n"
    ++ String.intercalate ";" (m.statements.map minifyStatement)

end MessageMinifier

/-! ## Knowledge engine (`sag/knowledge.py`)

Per-agent state.  The optional fold engine and the knowledge budget feed
only `_auto_fold`/`get_knowledge_pressure`, which no claim touches, so they
are not carried.  Python sets are association-list-free lists maintained
with membership-checked insertion. -/

structure KnowledgeEngine where
  agentId : String
  facts : List (String × Value × Int)
  subscriptions : List String
  subscribers : List (String × List String)
  versionVectors : List (String × Int)
  localVersion : Int
deriving Repr

def setAdd (s : List String) (x : String) : List String :=
  if s.contains x then s else s ++ [x]

namespace KnowledgeEngine

def init (agentId : String) : KnowledgeEngine :=
  ⟨agentId, [], [], [], [], 0⟩

def factsGet (facts : List (String × Value × Int)) (topic : String) : Option (Value × Int) :=
  dictGet facts topic

def assert_fact (e : KnowledgeEngine) (topic : String) (value : Value) :
    KnowledgeStatement × KnowledgeEngine :=
  let lv := e.localVersion + 1
  (⟨topic, value, lv⟩,
   { e with localVersion := lv, facts := dictSet e.facts topic (value, lv) })

def get_fact (e : KnowledgeEngine) (topic : String) : Option (Value × Int) :=
  factsGet e.facts topic

def query_facts (e : KnowledgeEngine) (pattern : String) : List (String × Value × Int) :=
  e.facts.filter (fun p => topic_matches pattern p.1)

def subscribe (e : KnowledgeEngine) (topicPattern : String) :
    SubscribeStatement × KnowledgeEngine :=
  (⟨topicPattern, none⟩, { e with subscriptions := setAdd e.subscriptions topicPattern })

def unsubscribe (e : KnowledgeEngine) (topicPattern : String) :
    UnsubscribeStatement × KnowledgeEngine :=
  (⟨topicPattern⟩, { e with subscriptions := e.subscriptions.filter (· ≠ topicPattern) })

def add_subscriber (e : KnowledgeEngine) (agentId : String) (topicPattern : String) :
    KnowledgeEngine :=
  { e with
    subscribers := dictSet e.subscribers agentId
      (setAdd (dictGetD e.subscribers agentId []) topicPattern),
    versionVectors :=
      if (dictGet e.versionVectors agentId).isSome then e.versionVectors
      else e.versionVectors ++ [(agentId, 0)] }

def remove_subscriber (e : KnowledgeEngine) (agentId : String) (topicPattern : String) :
    KnowledgeEngine :=
  match dictGet e.subscribers agentId with
  | none => e
  | some patterns =>
      let patterns' := patterns.filter (· ≠ topicPattern)
      { e with
        subscribers :=
          if patterns' = [] then dictDel e.subscribers agentId
          else dictSet e.subscribers agentId patterns' }

def is_interested (e : KnowledgeEngine) (topic : String) : Bool :=
  e.subscriptions.any (fun p => topic_matches p topic)

def compute_delta (e : KnowledgeEngine) (peerId : String) : List KnowledgeStatement :=
  let lastSeen := dictGetD e.versionVectors peerId 0
  let patterns := dictGetD e.subscribers peerId []
  if patterns = [] then []
  else
    let delta := (e.facts.filter
        (fun p => p.2.2 > lastSeen && patterns.any (fun q => topic_matches q p.1))).map
      (fun p => KnowledgeStatement.mk p.1 p.2.1 p.2.2)
    delta.mergeSort (fun a b => a.version ≤ b.version)

def applyIncomingGo (facts : List (String × Value × Int)) :
    List KnowledgeStatement → List KnowledgeStatement × List (String × Value × Int)
  | [] => ([], facts)
  | stmt :: rest =>
      match factsGet facts stmt.topic with
      | none =>
          let (applied, facts') := applyIncomingGo (dictSet facts stmt.topic (stmt.value, stmt.version)) rest
          (stmt :: applied, facts')
      | some existing =>
          if stmt.version > existing.2 then
            let (applied, facts') := applyIncomingGo (dictSet facts stmt.topic (stmt.value, stmt.version)) rest
            (stmt :: applied, facts')
          else
            applyIncomingGo facts rest

def apply_incoming (e : KnowledgeEngine) (statements : List KnowledgeStatement)
    (_sourceId : String) : List KnowledgeStatement × KnowledgeEngine :=
  let (applied, facts') := applyIncomingGo e.facts statements
  (applied, { e with facts := facts' })

def acknowledge_sync (e : KnowledgeEngine) (peerId : String) (upToVersion : Int) :
    KnowledgeEngine :=
  { e with versionVectors :=
      dictSet e.versionVectors peerId (max (dictGetD e.versionVectors peerId 0) upToVersion) }

def get_all_facts (e : KnowledgeEngine) : List (String × Value × Int) :=
  e.facts

def get_local_version (e : KnowledgeEngine) : Int :=
  e.localVersion

def delete_fact (e : KnowledgeEngine) (topic : String) : Bool × KnowledgeEngine :=
  if (factsGet e.facts topic).isSome then
    (true, { e with facts := dictDel e.facts topic })
  else
    (false, e)

def load_state (e : KnowledgeEngine) (facts : List (String × Value × Int))
    (localVersion : Int) : KnowledgeEngine :=
  { e with facts := facts, localVersion := localVersion }

def clear (e : KnowledgeEngine) : KnowledgeEngine :=
  { agentId := e.agentId, facts := [], subscriptions := [], subscribers := [],
    versionVectors := [], localVersion := 0 }

end KnowledgeEngine

/-! ## Correlation engine (`sag/correlation.py`)

`_message_id_counter = itertools.count(1)` is a **module-level** counter
shared by every engine in the process; the counter state is threaded
explicitly (`c` = number of ids issued so far process-wide).  The static
thread-tracing helpers and the timestamped header constructors are not
needed by any claim and are not carried. -/

structure CorrelationEngine where
  agentId : String
  correlationMap : List (String × String)
deriving DecidableEq, Repr

namespace CorrelationEngine

def init (agentId : String) : CorrelationEngine :=
  ⟨agentId, []⟩

/-- Embeds `record_incoming`: in the model a message always carries a
header and a message id (the Python `None` guards cannot fire). -/
def record_incoming (e : CorrelationEngine) (m : Message) : CorrelationEngine :=
  { e with correlationMap := dictSet e.correlationMap "last_received" m.header.messageId }

/-- Modelled from the spec: `get_state` is called by
`CheckpointManager.save` but is absent from the snapshot's
`correlation.py`; spec §4.7: "Serializable state: the mapping exposed via
`getState()`/`loadState()`". -/
def get_state (e : CorrelationEngine) : List (String × String) :=
  e.correlationMap

/-- Modelled from the spec: `load_state` is called by
`CheckpointManager.restore` but is absent from the snapshot's
`correlation.py`; it replaces the serializable mapping (spec §4.7). -/
def load_state (e : CorrelationEngine) (st : List (String × String)) : CorrelationEngine :=
  { e with correlationMap := st }

def clear (e : CorrelationEngine) : CorrelationEngine :=
  { e with correlationMap := [] }

/-- Embeds `generate_message_id`: next value of the module counter, then
the agent id, a dash, and the counter in decimal. -/
def generate_message_id (agentId : String) (c : Nat) : String × Nat :=
  (agentId ++ "-" ++ Nat.repr (c + 1), c + 1)

/-- A sequence of `generate_message_id` calls, one per listed agent id in
call order, threading the shared module-level counter. -/
def runGenerate : List String → Nat → List (String × Nat)
  | [], _ => []
  | a :: rest, c =>
      let r := generate_message_id a c
      r :: runGenerate rest r.2

/-- Modelled from the spec, FOR COMPARISON ONLY: §4.7 says "Per-agent
engine with a monotonically increasing local counter", i.e. every engine
owns its own counter starting at 1.  This follows the spec's words, not
the source, and is diffed against `runGenerate`. -/
def specPerEngineRun : List String → List (String × Nat) → List String
  | [], _ => []
  | a :: rest, ctrs =>
      let c := dictGetD ctrs a 0 + 1
      (a ++ "-" ++ Nat.repr c) :: specPerEngineRun rest (dictSet ctrs a c)

end CorrelationEngine

/-! ## Decimal printing facts

`generate_message_id` embeds the counter with Python `str(int)`, i.e.
`Nat.repr` here.  Distinct counters give distinct ids because the decimal
digits can be decoded back and contain no `'-'`. -/

def digitVal (c : Char) : Nat := c.toNat - 48

def decDigits (l : List Char) : Nat := l.foldl (fun acc c => acc * 10 + digitVal c) 0

instance {e a : Type} [DecidableEq e] [DecidableEq a] : DecidableEq (Except e a) := fun x y =>
  match x, y with
  | .ok u, .ok v =>
      match decEq u v with
      | isTrue h => isTrue (by rw [h])
      | isFalse h => isFalse (by intro hc; cases hc; exact h rfl)
  | .error u, .error v =>
      match decEq u v with
      | isTrue h => isTrue (by rw [h])
      | isFalse h => isFalse (by intro hc; cases hc; exact h rfl)
  | .ok _, .error _ => isFalse (by intro hc; cases hc)
  | .error _, .ok _ => isFalse (by intro hc; cases hc)

/-- Python `s.strip() == ""`: true iff every character is whitespace. -/
def stripIsEmpty (s : String) : Bool :=
  s.toList.all Char.isWhitespace

/-- Python `str.split` on a single separator character. -/
def splitCharL (sep : Char) : List Char → List (List Char)
  | [] => [[]]
  | c :: rest =>
      let r := splitCharL sep rest
      if c = sep then [] :: r
      else
        match r with
        | [] => [[c]]
        | h :: t => (c :: h) :: t

def splitChar (s : String) (sep : Char) : List String :=
  (splitCharL sep s.toList).map (fun l => ⟨l⟩)

/-! ## Path-addressable context (`sag/context.py`, `MapContext`) -/

abbrev MapContext := List (String × Value)

/-- Walks the split path through nested dicts; a missing key, a `None`
value, or a non-dict intermediate yields `None` (the Python loop's early
returns and its fall-through agree on this). -/
def MapContext.walk : Value → List String → Value
  | v, [] => v
  | .vObj m, p :: ps =>
      (match dictGet m p with
       | none => .vNull
       | some v => MapContext.walk v ps)
  | _, _ :: _ => .vNull

def MapContext.get (data : MapContext) (path : String) : Value :=
  if path = "" then .vNull
  else MapContext.walk (.vObj data) (splitChar path '.')

def MapContext.has (data : MapContext) (path : String) : Bool :=
  MapContext.get data path ≠ .vNull

/-! ## Expression evaluator (`sag/expression.py`)

The parse-tree shapes of the generated ANTLR parser become an AST; the
`_evaluate_*` helpers are embedded one-to-one.  Python numerics: `bool` is
an `int` subtype, so booleans count as numeric everywhere `isinstance(x,
(int, float))` is tested; arithmetic always produces a float (here an
exact rational).  All failure paths are wrapped by `evaluate` into a
single `SAGParseException`, modelled as `Except.error`. -/

inductive Expr where
  | orE (l r : Expr)
  | andE (l r : Expr)
  | rel (op : String) (l r : Expr)
  | arith (op : String) (l r : Expr)
  | lit (v : Value)
  | path (p : String)
deriving Repr

def isNumeric : Value → Bool
  | .vInt _ => true
  | .vFloat _ => true
  | .vBool _ => true
  | _ => false

def numQ : Value → ℚ
  | .vInt n => mkRat n 1
  | .vFloat q => q
  | .vBool b => if b then 1 else 0
  | _ => 0

/-- Embeds `_to_boolean`. -/
def toBoolean : Value → Bool
  | .vBool b => b
  | .vInt n => n ≠ 0
  | .vFloat q => q ≠ 0
  | .vStr s => s.length > 0
  | .vNull => false
  | _ => true

/-- Embeds `_to_double`. -/
def toDouble : Value → Except String ℚ
  | .vInt n => .ok (mkRat n 1)
  | .vFloat q => .ok q
  | .vBool b => .ok (if b then 1 else 0)
  | v => .error ("Cannot convert to number: " ++ pyStr v)

/-- Embeds `_compare_equals` (callers guarantee neither side is null). -/
def compareEquals (l r : Value) : Bool :=
  if isNumeric l && isNumeric r then numQ l == numQ r else l == r

/-- Embeds `_compare_numbers`. -/
def compareNumbers (l r : ℚ) (op : String) : Bool :=
  if op = ">" then l > r
  else if op = "<" then l < r
  else if op = ">=" then l ≥ r
  else if op = "<=" then l ≤ r
  else false

/-- Embeds `_evaluate_relational`; `left is right` under a null operand is
true exactly when both are null. -/
def evaluateRelational (l r : Value) (op : String) : Except String Bool :=
  if l = .vNull ∨ r = .vNull then
    if op = "==" then .ok (l == r)
    else if op = "!=" then .ok (!(l == r))
    else .ok false
  else if op = "==" then .ok (compareEquals l r)
  else if op = "!=" then .ok (!(compareEquals l r))
  else if op = ">" ∨ op = "<" ∨ op = ">=" ∨ op = "<=" then
    if isNumeric l && isNumeric r then .ok (compareNumbers (numQ l) (numQ r) op)
    else .error ("Cannot compare non-numeric values with " ++ op)
  else .ok false

/-- Embeds `_evaluate_arithmetic`. -/
def evaluateArithmetic (l r : Value) (op : String) : Except String ℚ := do
  let ln ← toDouble l
  let rn ← toDouble r
  if op = "+" then pure (ln + rn)
  else if op = "-" then pure (ln - rn)
  else if op = "*" then pure (ln * rn)
  else if op = "/" then
    if rn = 0 then throw "Division by zero" else pure (ln / rn)
  else pure 0

/-- Embeds `_evaluate_expr`/`_evaluate_primary`/`_evaluate_value`.  Both
operands are evaluated before `or`/`and` combine truthiness (as in the
source).  A list or object literal falls through `_evaluate_value` to
`None`.  A dotted path is answered by `context.get`, which never raises. -/
def evalExpr (ctx : MapContext) : Expr → Except String Value
  | .orE l r => do
      let a ← evalExpr ctx l
      let b ← evalExpr ctx r
      pure (.vBool (toBoolean a || toBoolean b))
  | .andE l r => do
      let a ← evalExpr ctx l
      let b ← evalExpr ctx r
      pure (.vBool (toBoolean a && toBoolean b))
  | .rel op l r => do
      let a ← evalExpr ctx l
      let b ← evalExpr ctx r
      Except.map Value.vBool (evaluateRelational a b op)
  | .arith op l r => do
      let a ← evalExpr ctx l
      let b ← evalExpr ctx r
      Except.map Value.vFloat (evaluateArithmetic a b op)
  | .lit v =>
      pure (match v with
            | .vList _ => .vNull
            | .vObj _ => .vNull
            | x => x)
  | .path p => pure (MapContext.get ctx p)

/-! ## Expression lexer and parser

Modelled from the spec: the ANTLR-generated lexer/parser under
`sag/generated/` is not in the snapshot.  Spec §4.1: operators
`|| && == != >= <= > < + - * /` with that precedence (low to high:
`||`, `&&`, comparison, additive, multiplicative, primary), left
associativity, parenthesised primaries, literal values and dotted paths;
identifiers are `[A-Za-z][A-Za-z0-9_.-]*` with maximal munch; strings are
double-quoted with the five escapes.  `evaluate` has already removed all
whitespace before lexing. -/

inductive Tok where
  | op (s : String)
  | lparen
  | rparen
  | lit (v : Value)
  | ident (s : String)
deriving DecidableEq, Repr

def unescapeChar (c : Char) : Option Char :=
  if c = '"' then some '"'
  else if c = '\\' then some '\\'
  else if c = 'n' then some '\n'
  else if c = 'r' then some '\r'
  else if c = 't' then some '\t'
  else none

def lexStringLit : List Char → List Char → Option (String × List Char)
  | _, [] => none
  | acc, c :: rest =>
      if c = '"' then some (⟨acc.reverse⟩, rest)
      else if c = '\\' then
        match rest with
        | [] => none
        | e :: rest2 =>
            match unescapeChar e with
            | none => none
            | some u => lexStringLit (u :: acc) rest2
      else lexStringLit (c :: acc) rest

def isIdentChar (c : Char) : Bool :=
  c.isAlphanum || c = '_' || c = '.' || c = '-'

def identTok (s : String) : Tok :=
  if s = "true" then .lit (.vBool true)
  else if s = "false" then .lit (.vBool false)
  else if s = "null" then .lit .vNull
  else .ident s

def lexTokens : Nat → List Char → Option (List Tok)
  | 0, _ => none
  | _, [] => some []
  | fuel + 1, c :: rest =>
      match c, rest with
      | '(', r => (lexTokens fuel r).map (.lparen :: ·)
      | ')', r => (lexTokens fuel r).map (.rparen :: ·)
      | '|', '|' :: r => (lexTokens fuel r).map (.op "||" :: ·)
      | '&', '&' :: r => (lexTokens fuel r).map (.op "&&" :: ·)
      | '=', '=' :: r => (lexTokens fuel r).map (.op "==" :: ·)
      | '!', '=' :: r => (lexTokens fuel r).map (.op "!=" :: ·)
      | '>', '=' :: r => (lexTokens fuel r).map (.op ">=" :: ·)
      | '<', '=' :: r => (lexTokens fuel r).map (.op "<=" :: ·)
      | '>', r => (lexTokens fuel r).map (.op ">" :: ·)
      | '<', r => (lexTokens fuel r).map (.op "<" :: ·)
      | '+', r => (lexTokens fuel r).map (.op "+" :: ·)
      | '-', r => (lexTokens fuel r).map (.op "-" :: ·)
      | '*', r => (lexTokens fuel r).map (.op "*" :: ·)
      | '/', r => (lexTokens fuel r).map (.op "/" :: ·)
      | '"', r =>
          (match lexStringLit [] r with
           | none => none
           | some (s, r2) => (lexTokens fuel r2).map (.lit (.vStr s) :: ·))
      | c, r =>
          if c.isDigit then
            let ds := c :: r.takeWhile Char.isDigit
            let r2 := r.dropWhile Char.isDigit
            match r2 with
            | '.' :: d0 :: r3 =>
                if d0.isDigit then
                  let frac := d0 :: r3.takeWhile Char.isDigit
                  let r4 := r3.dropWhile Char.isDigit
                  let q : ℚ := mkRat (decDigits ds) 1
                    + mkRat (decDigits frac) (10 ^ frac.length)
                  (lexTokens fuel r4).map (.lit (.vFloat q) :: ·)
                else (lexTokens fuel r2).map (.lit (.vInt (decDigits ds)) :: ·)
            | _ => (lexTokens fuel r2).map (.lit (.vInt (decDigits ds)) :: ·)
          else if c.isAlpha then
            let idcs := c :: r.takeWhile isIdentChar
            let r2 := r.dropWhile isIdentChar
            (lexTokens fuel r2).map (identTok ⟨idcs⟩ :: ·)
          else none

mutual

def parsePrimary : Nat → List Tok → Option (Expr × List Tok)
  | 0, _ => none
  | fuel + 1, toks =>
      match toks with
      | .lparen :: rest =>
          (match parseOrE fuel rest with
           | some (e, .rparen :: rest2) => some (e, rest2)
           | _ => none)
      | .lit v :: rest => some (.lit v, rest)
      | .ident s :: rest => some (.path s, rest)
      | _ => none

def parseMulE : Nat → List Tok → Option (Expr × List Tok)
  | 0, _ => none
  | fuel + 1, toks =>
      match parsePrimary fuel toks with
      | none => none
      | some (e, rest) => parseMulRest fuel e rest

def parseMulRest : Nat → Expr → List Tok → Option (Expr × List Tok)
  | 0, _, _ => none
  | fuel + 1, acc, toks =>
      match toks with
      | .op o :: rest =>
          if o = "*" || o = "/" then
            match parsePrimary fuel rest with
            | none => none
            | some (r, rest2) => parseMulRest fuel (.arith o acc r) rest2
          else some (acc, toks)
      | _ => some (acc, toks)

def parseAddE : Nat → List Tok → Option (Expr × List Tok)
  | 0, _ => none
  | fuel + 1, toks =>
      match parseMulE fuel toks with
      | none => none
      | some (e, rest) => parseAddRest fuel e rest

def parseAddRest : Nat → Expr → List Tok → Option (Expr × List Tok)
  | 0, _, _ => none
  | fuel + 1, acc, toks =>
      match toks with
      | .op o :: rest =>
          if o = "+" || o = "-" then
            match parseMulE fuel rest with
            | none => none
            | some (r, rest2) => parseAddRest fuel (.arith o acc r) rest2
          else some (acc, toks)
      | _ => some (acc, toks)

def parseRelE : Nat → List Tok → Option (Expr × List Tok)
  | 0, _ => none
  | fuel + 1, toks =>
      match parseAddE fuel toks with
      | none => none
      | some (e, rest) => parseRelRest fuel e rest

def parseRelRest : Nat → Expr → List Tok → Option (Expr × List Tok)
  | 0, _, _ => none
  | fuel + 1, acc, toks =>
      match toks with
      | .op o :: rest =>
          if o = "==" || o = "!=" || o = ">" || o = "<" || o = ">=" || o = "<=" then
            match parseAddE fuel rest with
            | none => none
            | some (r, rest2) => parseRelRest fuel (.rel o acc r) rest2
          else some (acc, toks)
      | _ => some (acc, toks)

def parseAndE : Nat → List Tok → Option (Expr × List Tok)
  | 0, _ => none
  | fuel + 1, toks =>
      match parseRelE fuel toks with
      | none => none
      | some (e, rest) => parseAndRest fuel e rest

def parseAndRest : Nat → Expr → List Tok → Option (Expr × List Tok)
  | 0, _, _ => none
  | fuel + 1, acc, toks =>
      match toks with
      | .op o :: rest =>
          if o = "&&" then
            match parseRelE fuel rest with
            | none => none
            | some (r, rest2) => parseAndRest fuel (.andE acc r) rest2
          else some (acc, toks)
      | _ => some (acc, toks)

def parseOrE : Nat → List Tok → Option (Expr × List Tok)
  | 0, _ => none
  | fuel + 1, toks =>
      match parseAndE fuel toks with
      | none => none
      | some (e, rest) => parseOrRest fuel e rest

def parseOrRest : Nat → Expr → List Tok → Option (Expr × List Tok)
  | 0, _, _ => none
  | fuel + 1, acc, toks =>
      match toks with
      | .op o :: rest =>
          if o = "||" then
            match parseAndE fuel rest with
            | none => none
            | some (r, rest2) => parseOrRest fuel (.orE acc r) rest2
          else some (acc, toks)
      | _ => some (acc, toks)

end

def parseExprToks (toks : List Tok) : Option Expr :=
  match parseOrE (4 * toks.length + 4) toks with
  | some (e, []) => some e
  | _ => none

namespace ExpressionEvaluator

/-- Embeds `ExpressionEvaluator.evaluate`: empty/whitespace-only input
yields `None`; otherwise `re.sub(r"\s+", "", …)` strips all whitespace,
the cleaned text is parsed and evaluated, and every failure (lexing,
parsing, or evaluation) surfaces as the single wrapped exception. -/
def evaluate (expression : String) (ctx : MapContext) : Except String Value :=
  if stripIsEmpty expression then .ok .vNull
  else
    let clean := expression.toList.filter (fun c => ¬ c.isWhitespace)
    match lexTokens (clean.length + 1) clean with
    | none => .error "Failed to evaluate expression: lex error"
    | some toks =>
        match parseExprToks toks with
        | none => .error "Failed to evaluate expression: parse error"
        | some e => evalExpr ctx e

end ExpressionEvaluator

/-! ## Guardrail (`sag/guardrail.py`) and sanitizer layers (`sag/sanitizer.py`) -/

structure ValidationResult where
  isValid : Bool
  errorCode : Option String := none
  errorMessage : Option String := none
deriving DecidableEq, Repr

def ValidationResult.success : ValidationResult := ⟨true, none, none⟩

def ValidationResult.failure (code msg : String) : ValidationResult :=
  ⟨false, some code, some msg⟩

/-- Embeds `_is_expression`. -/
def isExpression (reason : String) : Bool :=
  strContains reason ">" || strContains reason "<" || strContains reason "==" ||
  strContains reason "!=" || strContains reason ">=" || strContains reason "<=" ||
  strContains reason "&&" || strContains reason "||"

namespace GuardrailValidator

/-- Embeds `GuardrailValidator.validate`.  Only the action's `reason`
field is consumed (the `action is None` guard cannot fire in the model). -/
def validate (reason : Option String) (ctx : MapContext) : ValidationResult :=
  match reason with
  | none => .success
  | some r =>
      if stripIsEmpty r then .success
      else if ¬ isExpression r then .success
      else
        match ExpressionEvaluator.evaluate r ctx with
        | .error e => .failure "INVALID_EXPRESSION" ("Failed to evaluate precondition: " ++ e)
        | .ok (.vBool b) =>
            if b then .success
            else .failure "PRECONDITION_FAILED" ("Precondition not met: " ++ r)
        | .ok .vNull => .failure "PRECONDITION_FAILED" "Expression evaluated to null"
        | .ok _ => .success

end GuardrailValidator

inductive ErrorType where
  | PARSE
  | ROUTING
  | SCHEMA
  | GUARDRAIL
deriving DecidableEq, Repr

structure ValidationError where
  errorType : ErrorType
  code : String
  message : String
deriving DecidableEq, Repr

structure AgentRegistry where
  agents : List String
deriving Repr

def AgentRegistry.is_known (r : AgentRegistry) (agentId : String) : Bool :=
  r.agents.contains agentId

namespace SAGSanitizer

/-- Embeds `_validate_routing`.  `if header.source and not known` — the
empty string is falsy in Python, so an empty source or destination skips
its registry check entirely. -/
def validate_routing (reg : AgentRegistry) (m : Message) : List ValidationError :=
  (if m.header.source ≠ "" ∧ ¬ reg.is_known m.header.source then
     [⟨.ROUTING, "UNKNOWN_SOURCE", "Unknown source agent: " ++ m.header.source⟩]
   else [])
  ++
  (if m.header.destination ≠ "" ∧ ¬ reg.is_known m.header.destination then
     [⟨.ROUTING, "UNKNOWN_DESTINATION", "Unknown destination agent: " ++ m.header.destination⟩]
   else [])

/-- Embeds `_validate_guardrails` (run against the sanitizer's default
context, passed here as `ctx`). -/
def validate_guardrails (ctx : MapContext) (m : Message) : List ValidationError :=
  m.statements.filterMap (fun st =>
    match st with
    | .action _ _ _ _ _ _ reason =>
        let r := GuardrailValidator.validate reason ctx
        if r.isValid then none
        else some ⟨.GUARDRAIL, r.errorCode.getD "", r.errorMessage.getD ""⟩
    | _ => none)

end SAGSanitizer

/-! ## Agent tree and checkpoint manager (`sag/tree.py`, `sag/checkpoint.py`)

`TreeEngine._nodes` is an id-keyed dict of `AgentNode`s; each node owns a
knowledge engine and a correlation engine (parent/child links and metadata
feed only topology operations, modelled separately below for the grove
claim).  `CheckpointManager.save` takes the fresh uuid and `time.time()`
value as parameters; writing and re-reading the JSON file is the
`meta_to_dict`/`dict_to_meta` pair, where each `(value, version)` fact
tuple crosses JSON as a two-element list. -/

structure AgentNode where
  agentId : String
  role : String
  knowledge : KnowledgeEngine
  correlation : CorrelationEngine
deriving Repr

structure TreeEngine where
  nodes : List AgentNode
deriving Repr

def TreeEngine.get_all_node_ids (t : TreeEngine) : List String :=
  t.nodes.map (·.agentId)

def TreeEngine.get_node (t : TreeEngine) (agentId : String) : Option AgentNode :=
  t.nodes.find? (fun n => n.agentId = agentId)

structure NodeSnapshot where
  agent_id : String
  role : String
  facts : List (String × Value × Int)
  local_version : Int
  correlation_state : List (String × String)
deriving Repr

structure CheckpointMeta where
  checkpoint_id : String
  task : String
  timestamp : Int
  agents_run : Int
  current_level : Int
  total_levels : Int
  node_snapshots : List (String × NodeSnapshot)
  messages : List String
deriving Repr

/-- JSON image of a node snapshot: `_meta_to_dict` turns each fact's
`(value, version)` tuple into the two-element JSON list
`[value, version]`. -/
structure NodeSnapshotJson where
  agent_id : String
  role : String
  facts : List (String × Value)
  local_version : Int
  correlation_state : List (String × String)
deriving Repr

structure CheckpointJson where
  checkpoint_id : String
  task : String
  timestamp : Int
  agents_run : Int
  current_level : Int
  total_levels : Int
  node_snapshots : List (String × NodeSnapshotJson)
  messages : List String
deriving Repr

namespace CheckpointManager

def save (tree : TreeEngine) (task : String) (messages : List Message)
    (agentsRun currentLevel totalLevels : Int)
    (checkpointId : String) (timestamp : Int) : CheckpointMeta :=
  { checkpoint_id := checkpointId
    task := task
    timestamp := timestamp
    agents_run := agentsRun
    current_level := currentLevel
    total_levels := totalLevels
    node_snapshots := tree.nodes.map (fun n =>
      (n.agentId,
       { agent_id := n.agentId
         role := n.role
         facts := n.knowledge.get_all_facts
         local_version := n.knowledge.get_local_version
         correlation_state := n.correlation.get_state }))
    messages := messages.map MessageMinifier.to_minified_string }

def meta_to_dict (m : CheckpointMeta) : CheckpointJson :=
  { checkpoint_id := m.checkpoint_id
    task := m.task
    timestamp := m.timestamp
    agents_run := m.agents_run
    current_level := m.current_level
    total_levels := m.total_levels
    node_snapshots := m.node_snapshots.map (fun p =>
      (p.1,
       { agent_id := p.2.agent_id
         role := p.2.role
         facts := p.2.facts.map (fun f => (f.1, Value.vList [f.2.1, Value.vInt f.2.2]))
         local_version := p.2.local_version
         correlation_state := p.2.correlation_state }))
    messages := m.messages }

/-- Reinterpretation of a JSON fact cell as the `(value, version)` pair,
as `facts = {k: tuple(v) ...}` plus the `v[0], v[1]` access in `restore`
do; a malformed cell (never produced by `meta_to_dict`) is a decode
failure, where Python would raise. -/
def decodeFact : String × Value → Option (String × Value × Int)
  | (t, .vList [v, .vInt ver]) => some (t, v, ver)
  | _ => none

def decodeFacts : List (String × Value) → Option (List (String × Value × Int))
  | [] => some []
  | f :: rest => do
      let d ← decodeFact f
      let ds ← decodeFacts rest
      pure (d :: ds)

def decodeSnaps : List (String × NodeSnapshotJson) → Option (List (String × NodeSnapshot))
  | [] => some []
  | p :: rest => do
      let fs ← decodeFacts p.2.facts
      let ds ← decodeSnaps rest
      pure ((p.1,
        ({ agent_id := p.2.agent_id
           role := p.2.role
           facts := fs
           local_version := p.2.local_version
           correlation_state := p.2.correlation_state } : NodeSnapshot)) :: ds)

def dict_to_meta (j : CheckpointJson) : Option CheckpointMeta := do
  let snaps ← decodeSnaps j.node_snapshots
  pure
    { checkpoint_id := j.checkpoint_id
      task := j.task
      timestamp := j.timestamp
      agents_run := j.agents_run
      current_level := j.current_level
      total_levels := j.total_levels
      node_snapshots := snaps
      messages := j.messages }

/-- Embeds `restore`: every snapshot entry whose agent id has a live node
loads facts plus local version into the knowledge engine and the
correlation state into the correlation engine; snapshot entries without a
live node are skipped, and nodes without a snapshot entry are untouched. -/
def restore (meta : CheckpointMeta) (tree : TreeEngine) : TreeEngine :=
  ⟨tree.nodes.map (fun n =>
    match dictGet meta.node_snapshots n.agentId with
    | none => n
    | some s =>
        { n with
          knowledge := n.knowledge.load_state s.facts s.local_version
          correlation := n.correlation.load_state s.correlation_state })⟩

end CheckpointManager

/-! ## Grove execution order (`sag/grove.py`, `sag/tree.py`)

For the ordering claim only the topology matters: `Grove.execute` computes
`levels = get_levels_bottom_up()` before its loop, and nothing in the loop
(runner calls, knowledge propagation) modifies the topology, so the order
in which the `on_agent_start`/`on_agent_done` callback points are reached
is a function of the tree alone.  A node is its agent id plus its ordered
children (the single-rooted tree maintained by `add_root`/`add_child`). -/

inductive ATree where
  | node (id : String) (children : List ATree)
deriving Repr

def ATree.id : ATree → String
  | .node i _ => i

def ATree.children : ATree → List ATree
  | .node _ cs => cs

mutual

def ATree.size : ATree → Nat
  | .node _ cs => 1 + ATree.sizeForest cs

def ATree.sizeForest : List ATree → Nat
  | [] => 0
  | t :: ts => ATree.size t + ATree.sizeForest ts

end

def queueSize : List (ATree × Nat) → Nat
  | [] => 0
  | (t, _) :: q => t.size + queueSize q

theorem queueSize_append (a b : List (ATree × Nat)) :
    queueSize (a ++ b) = queueSize a + queueSize b := by
  induction a with
  | nil => simp [queueSize]
  | cons p a ih => obtain ⟨t, d⟩ := p; simp [queueSize, ih]; omega

theorem queueSize_map_children (cs : List ATree) (d : Nat) :
    queueSize (cs.map (fun c => (c, d))) = ATree.sizeForest cs := by
  induction cs with
  | nil => simp [queueSize, ATree.sizeForest]
  | cons c cs ih => simp [queueSize, ATree.sizeForest, ih]

/-- Embeds the BFS loop of `get_levels_bottom_up`: pop the queue front,
record `(agent_id, depth)` in the depth map (ids are unique in a tree, so
the dict write is an append), push the children at `depth + 1`. -/
def bfs : List (ATree × Nat) → List (String × Nat)
  | [] => []
  | (ATree.node i cs, d) :: q => (i, d) :: bfs (q ++ cs.map (fun c => (c, d + 1)))
termination_by q => queueSize q
decreasing_by
  simp only [queueSize, queueSize_append, queueSize_map_children, ATree.size]
  omega

def depthMap (t : ATree) : List (String × Nat) :=
  bfs [(t, 0)]

/-- Running maximum over recorded depths (`max_depth` in the source). -/
def maxDepth (t : ATree) : Nat :=
  ((depthMap t).map Prod.snd).foldl max 0

/-- Embeds the grouping step: `levels[depth]` collects ids in depth-map
order, then the list of levels is reversed (deepest first). -/
def levelsBottomUp (t : ATree) : List (List String) :=
  ((List.range (maxDepth t + 1)).map
    (fun d => ((depthMap t).filter (fun p => p.2 = d)).map Prod.fst)).reverse

inductive GroveEvent where
  | start (id : String)
  | done (id : String)
deriving DecidableEq, Repr

/-- The sequence of callback firing points of `Grove.execute`: per level
(bottom-up), per node, `on_agent_start` then the runner then
`on_agent_done`. -/
def Grove.executeTrace (t : ATree) : List GroveEvent :=
  (levelsBottomUp t).flatMap (fun lvl => lvl.flatMap (fun i => [.start i, .done i]))

mutual

def treeDepths : ATree → Nat → List (String × Nat)
  | .node i cs, d => (i, d) :: forestDepths cs (d + 1)

def forestDepths : List ATree → Nat → List (String × Nat)
  | [], _ => []
  | t :: ts, d => treeDepths t d ++ forestDepths ts d

end

mutual

def subtreesOf : ATree → List ATree
  | .node i cs => .node i cs :: forestSubtrees cs

def forestSubtrees : List ATree → List ATree
  | [] => []
  | t :: ts => subtreesOf t ++ forestSubtrees ts

end

/-- Node `d` is a (strict) ancestor of node `a`: some subtree rooted at a
node named `d` has `a` strictly below its root. -/
def AncestorOf (t : ATree) (d a : String) : Prop :=
  ∃ s ∈ subtreesOf t, s.id = d ∧ a ∈ (forestDepths s.children 1).map Prod.fst

instance (t : ATree) (d a : String) : Decidable (AncestorOf t d a) := by
  unfold AncestorOf
  infer_instance


/-! ## Invariant predicates used by the claims -/

/-- Knowledge invariant (spec §3): every stored fact's version is at most
`localVersion` (equivalently, `localVersion` bounds the maximum stored
version). -/
def KnowledgeEngine.Inv (e : KnowledgeEngine) : Prop :=
  ∀ p ∈ e.facts, p.2.2 ≤ e.localVersion

instance (e : KnowledgeEngine) : Decidable e.Inv := by
  unfold KnowledgeEngine.Inv
  infer_instance

/-- Every incoming statement's version is bounded by `lv`. -/
def versionsBounded (stmts : List KnowledgeStatement) (lv : Int) : Prop :=
  ∀ s ∈ stmts, s.version ≤ lv

instance (stmts : List KnowledgeStatement) (lv : Int) : Decidable (versionsBounded stmts lv) := by
  unfold versionsBounded
  infer_instance

/-!
# Theorems

Helper lemmas first, then one theorem per claim (with its witness or
counterexample where the claim's theorem has a hypothesis).
-/

/-! ### Decimal-printing lemmas (for the message-id claims) -/

theorem decDigits_append_singleton (l : List Char) (c : Char) :
    decDigits (l ++ [c]) = decDigits l * 10 + digitVal c := by
  simp [decDigits, List.foldl_append]

theorem digitVal_digitChar (d : Nat) (h : d < 10) : digitVal (Nat.digitChar d) = d := by
  interval_cases d <;> decide

theorem digitChar_ne_dash (d : Nat) (h : d < 10) : Nat.digitChar d ≠ '-' := by
  interval_cases d <;> decide

theorem toDigitsCore_shift (b : Nat) : ∀ (fuel n : Nat) (ds : List Char),
    Nat.toDigitsCore b fuel n ds = Nat.toDigitsCore b fuel n [] ++ ds := by
  intro fuel
  induction fuel with
  | zero => intro n ds; simp [Nat.toDigitsCore]
  | succ f ih =>
      intro n ds
      simp only [Nat.toDigitsCore]
      by_cases h : n / b = 0
      · simp [h]
      · simp only [if_neg h]
        rw [ih (n / b) (Nat.digitChar (n % b) :: ds), ih (n / b) [Nat.digitChar (n % b)]]
        simp

theorem decDigits_toDigitsCore : ∀ (fuel n : Nat), n < fuel →
    decDigits (Nat.toDigitsCore 10 fuel n []) = n := by
  intro fuel
  induction fuel with
  | zero => intro n h; omega
  | succ f ih =>
      intro n h
      simp only [Nat.toDigitsCore]
      by_cases h0 : n / 10 = 0
      · simp only [if_pos h0]
        simp only [decDigits, List.foldl_cons, List.foldl_nil, Nat.zero_mul, Nat.zero_add]
        rw [digitVal_digitChar (n % 10) (by omega)]
        omega
      · simp only [if_neg h0]
        rw [toDigitsCore_shift, decDigits_append_singleton]
        have h1 : n / 10 < f := by omega
        rw [ih (n / 10) h1, digitVal_digitChar (n % 10) (by omega)]
        omega

theorem decDigits_toDigits (n : Nat) : decDigits (Nat.toDigits 10 n) = n :=
  decDigits_toDigitsCore (n + 1) n (Nat.lt_succ_self n)

theorem toDigits_mem_digit : ∀ (fuel n : Nat) (c : Char),
    c ∈ Nat.toDigitsCore 10 fuel n [] → ∃ d, d < 10 ∧ c = Nat.digitChar d := by
  intro fuel
  induction fuel with
  | zero => intro n c h; simp [Nat.toDigitsCore] at h
  | succ f ih =>
      intro n c h
      simp only [Nat.toDigitsCore] at h
      by_cases h0 : n / 10 = 0
      · simp only [if_pos h0, List.mem_singleton] at h
        exact ⟨n % 10, by omega, h⟩
      · simp only [if_neg h0] at h
        rw [toDigitsCore_shift] at h
        rcases List.mem_append.mp h with h1 | h1
        · exact ih (n / 10) c h1
        · simp only [List.mem_singleton] at h1
          exact ⟨n % 10, by omega, h1⟩

theorem dash_not_mem_toDigits (n : Nat) : '-' ∉ Nat.toDigits 10 n := by
  intro h
  obtain ⟨d, hd, hc⟩ := toDigits_mem_digit (n + 1) n '-' h
  exact digitChar_ne_dash d hd hc.symm

theorem repr_data (n : Nat) : (Nat.repr n).data = Nat.toDigits 10 n := rfl

theorem repr_inj {m n : Nat} (h : Nat.repr m = Nat.repr n) : m = n := by
  have hd : Nat.toDigits 10 m = Nat.toDigits 10 n := by
    have := congrArg String.data h
    simpa [repr_data] using this
  have := congrArg decDigits hd
  simpa [decDigits_toDigits] using this

theorem append_dash_inj : ∀ (a1 a2 r1 r2 : List Char), '-' ∉ r1 → '-' ∉ r2 →
    a1 ++ '-' :: r1 = a2 ++ '-' :: r2 → r1 = r2 := by
  intro a1
  induction a1 with
  | nil =>
      intro a2 r1 r2 h1 h2 h
      cases a2 with
      | nil => simpa using h
      | cons c a2 =>
          simp only [List.nil_append, List.cons_append, List.cons.injEq] at h
          exfalso
          apply h1
          rw [h.2]
          exact List.mem_append.mpr (Or.inr (by simp))
  | cons c a1 ih =>
      intro a2 r1 r2 h1 h2 h
      cases a2 with
      | nil =>
          simp only [List.cons_append, List.nil_append, List.cons.injEq] at h
          exfalso
          apply h2
          rw [← h.2]
          exact List.mem_append.mpr (Or.inr (by simp))
      | cons c2 a2 =>
          simp only [List.cons_append, List.cons.injEq] at h
          exact ih a2 r1 r2 h1 h2 h.2

theorem message_id_inj (a1 a2 : String) (c1 c2 : Nat)
    (h : a1 ++ "-" ++ Nat.repr c1 = a2 ++ "-" ++ Nat.repr c2) : c1 = c2 := by
  have hd := congrArg String.data h
  simp only [String.data_append] at hd
  have h' : a1.data ++ '-' :: (Nat.repr c1).data = a2.data ++ '-' :: (Nat.repr c2).data := by
    simpa using hd
  have hdata := append_dash_inj a1.data a2.data _ _
    (by rw [repr_data]; exact dash_not_mem_toDigits c1)
    (by rw [repr_data]; exact dash_not_mem_toDigits c2) h'
  have hdig : Nat.toDigits 10 c1 = Nat.toDigits 10 c2 := by
    rw [← repr_data, ← repr_data]; exact hdata
  have := congrArg decDigits hdig
  simpa [decDigits_toDigits] using this

/-! ### C1 — minifier round-trip -/

/-- C1: the claim says every parsed message, including ones whose bodies
contain SUB, UNSUB or KNOW statements, survives
`to_minified_string`/re-parse.  In the source `_minify_statement` has no
branch for those three statement classes and returns `""` for them, so a
message whose body is exactly the parse of `SUB system.*`,
`UNSUB system.*`, or `KNOW deployment.status = "healthy" v 1` minifies to
the bare header line (the statement text is gone), and a mixed body
yields stray `;` separators around empty fragments — the minified text
cannot parse back to the original model.  (The package's own tests,
e.g. `test_know_round_trip`, assert `"KNOW deployment.status"` appears
in the minified text, so this is the snapshot contradicting its tests.) -/
theorem C1_minifier_drops_knowledge_layer_statements :
    (MessageMinifier.to_minified_string
      ⟨⟨1, "msg1", "svc1", "svc2", 1234567890, none, none⟩,
       [.know ⟨"deployment.status", .vStr "healthy", 1⟩]⟩
      = "H v 1 id=msg1 src=svc1 dst=svc2 ts=1234567890\n")
    ∧ (MessageMinifier.to_minified_string
      ⟨⟨1, "msg1", "svc1", "svc2", 1234567890, none, none⟩,
       [.sub ⟨"system.*", none⟩]⟩
      = "H v 1 id=msg1 src=svc1 dst=svc2 ts=1234567890\n")
    ∧ (MessageMinifier.to_minified_string
      ⟨⟨1, "msg1", "svc1", "svc2", 1234567890, none, none⟩,
       [.unsub ⟨"system.*"⟩]⟩
      = "H v 1 id=msg1 src=svc1 dst=svc2 ts=1234567890\n")
    ∧ (MessageMinifier.to_minified_string
      ⟨⟨1, "msg1", "svc1", "svc2", 1234567890, none, none⟩,
       [.action "start" [] [] none none none none,
        .sub ⟨"system.*", none⟩,
        .know ⟨"system.cpu", .vInt 85, 3⟩]⟩
      = "H v 1 id=msg1 src=svc1 dst=svc2 ts=1234567890\nDO start();;") := by
  refine ⟨by decide, by decide, by decide, by decide⟩

/-! ### C2 — knowledge invariants -/

theorem mem_dictSet {α : Type} (m : List (String × α)) (k : String) (v : α)
    (p : String × α) (hp : p ∈ dictSet m k v) : p = (k, v) ∨ p ∈ m := by
  unfold dictSet at hp
  split at hp
  · obtain ⟨q, hq, he⟩ := List.mem_map.mp hp
    by_cases h : q.1 = k
    · simp only [if_pos h] at he
      exact Or.inl he.symm
    · simp only [if_neg h] at he
      exact Or.inr (he ▸ hq)
  · rcases List.mem_append.mp hp with h | h
    · exact Or.inr h
    · exact Or.inl (List.mem_singleton.mp h)

theorem applyIncomingGo_bound (L : Int) :
    ∀ (stmts : List KnowledgeStatement) (facts : List (String × Value × Int)),
    (∀ p ∈ facts, p.2.2 ≤ L) → versionsBounded stmts L →
    ∀ p ∈ (KnowledgeEngine.applyIncomingGo facts stmts).2, p.2.2 ≤ L := by
  intro stmts
  induction stmts with
  | nil => intro facts hf _ p hp; exact hf p hp
  | cons s rest ih =>
      intro facts hf hs p hp
      have hsL : s.version ≤ L := hs s (by simp)
      have hrest : versionsBounded rest L := fun x hx => hs x (by simp [hx])
      have hset : ∀ q ∈ dictSet facts s.topic (s.value, s.version), q.2.2 ≤ L := by
        intro q hq
        rcases mem_dictSet _ _ _ q hq with h | h
        · rw [h]; exact hsL
        · exact hf q h
      simp only [KnowledgeEngine.applyIncomingGo] at hp
      split at hp
      · exact ih _ hset hrest p hp
      · split at hp
        · exact ih _ hset hrest p hp
        · exact ih _ hf hrest p hp

/-- C2 (amended): every `KnowledgeEngine` operation other than
`apply_incoming` (and the checkpoint bulk-loader `load_state`) preserves
the invariant that every stored fact's version is at most `localVersion`;
`apply_incoming`, which updates the fact map without bumping
`localVersion`, preserves it only under the extra hypothesis that every
incoming version is bounded by the current `localVersion` — not for every
list of incoming KNOW statements. -/
theorem C2_knowledge_invariant_preservation :
    (∀ (e : KnowledgeEngine) (t : String) (v : Value), e.Inv →
      (e.assert_fact t v).2.Inv ∧ (e.assert_fact t v).1.version = (e.assert_fact t v).2.localVersion)
    ∧ (∀ (e : KnowledgeEngine) (p : String), e.Inv → (e.subscribe p).2.Inv)
    ∧ (∀ (e : KnowledgeEngine) (p : String), e.Inv → (e.unsubscribe p).2.Inv)
    ∧ (∀ (e : KnowledgeEngine) (a p : String), e.Inv → (e.add_subscriber a p).Inv)
    ∧ (∀ (e : KnowledgeEngine) (a p : String), e.Inv → (e.remove_subscriber a p).Inv)
    ∧ (∀ (e : KnowledgeEngine) (a : String) (v : Int), e.Inv → (e.acknowledge_sync a v).Inv)
    ∧ (∀ (e : KnowledgeEngine) (t : String), e.Inv → (e.delete_fact t).2.Inv)
    ∧ (∀ (e : KnowledgeEngine), e.Inv → e.clear.Inv)
    ∧ (∀ (e : KnowledgeEngine) (stmts : List KnowledgeStatement) (src : String), e.Inv →
        versionsBounded stmts e.localVersion → (e.apply_incoming stmts src).2.Inv) := by
  refine ⟨?_, ?_, ?_, ?_, ?_, ?_, ?_, ?_, ?_⟩
  · intro e t v h
    constructor
    · intro p hp
      simp only [KnowledgeEngine.assert_fact] at hp ⊢
      rcases mem_dictSet _ _ _ p hp with h1 | h1
      · rw [h1]
      · exact le_trans (h p h1) (by omega)
    · rfl
  · intro e p h q hq
    exact h q hq
  · intro e p h q hq
    exact h q hq
  · intro e a p h q hq
    exact h q hq
  · intro e a p h
    unfold KnowledgeEngine.remove_subscriber
    split
    · exact h
    · exact h
  · intro e a v h q hq
    exact h q hq
  · intro e t h
    unfold KnowledgeEngine.delete_fact
    split
    · intro q hq
      exact h q (List.mem_filter.mp hq).1
    · exact h
  · intro e h q hq
    simp [KnowledgeEngine.clear] at hq
  · intro e stmts src h hb q hq
    simp only [KnowledgeEngine.apply_incoming] at hq
    exact applyIncomingGo_bound e.localVersion stmts e.facts h hb q hq

/-- C2 witness: a concrete engine (one local assert, so `localVersion = 1`)
and one incoming statement with version 1 keep the invariant. -/
theorem C2_knowledge_invariant_preservation_witness :
    ((KnowledgeEngine.init "a").assert_fact "x" .vNull).2.Inv
    ∧ versionsBounded [⟨"t", .vNull, 1⟩]
        ((KnowledgeEngine.init "a").assert_fact "x" .vNull).2.localVersion
    ∧ ((((KnowledgeEngine.init "a").assert_fact "x" .vNull).2.apply_incoming
        [⟨"t", .vNull, 1⟩] "peer").2).Inv :=
  ⟨by decide, by decide,
   C2_knowledge_invariant_preservation.2.2.2.2.2.2.2.2
     ((KnowledgeEngine.init "a").assert_fact "x" .vNull).2 [⟨"t", .vNull, 1⟩] "peer"
     (by decide) (by decide)⟩

/-- C2 counterexample: on a fresh engine (`localVersion = 0`),
`apply_incoming` of a single KNOW with version 5 stores a fact whose
version exceeds `localVersion`, so the claimed invariant preservation for
every list of incoming statements is false. -/
theorem C2_counterexample :
    (KnowledgeEngine.init "a").Inv
    ∧ ((KnowledgeEngine.init "a").apply_incoming [⟨"t", .vNull, 5⟩] "peer").2.facts
        = [("t", .vNull, 5)]
    ∧ ((KnowledgeEngine.init "a").apply_incoming [⟨"t", .vNull, 5⟩] "peer").2.localVersion = 0
    ∧ ¬ ((KnowledgeEngine.init "a").apply_incoming [⟨"t", .vNull, 5⟩] "peer").2.Inv := by
  refine ⟨by decide, by decide, by decide, by decide⟩

/-! ### C10 — routing check skipped for empty ids -/

/-- C10: in `_validate_routing` the Python truthiness test
`if header.source and not known` skips the registry membership check
whenever the source (resp. destination) is the empty string, so such a
message produces no `UNKNOWN_SOURCE` (resp. `UNKNOWN_DESTINATION`) error
— and with both ids empty the routing layer produces no error at all —
regardless of the registry contents. -/
theorem C10_empty_ids_skip_routing_check (reg : AgentRegistry) (h : Header)
    (stmts : List Statement) :
    (h.source = "" →
      ∀ e ∈ SAGSanitizer.validate_routing reg ⟨h, stmts⟩, e.code ≠ "UNKNOWN_SOURCE")
    ∧ (h.destination = "" →
      ∀ e ∈ SAGSanitizer.validate_routing reg ⟨h, stmts⟩, e.code ≠ "UNKNOWN_DESTINATION")
    ∧ (h.source = "" → h.destination = "" →
      SAGSanitizer.validate_routing reg ⟨h, stmts⟩ = []) := by
  refine ⟨?_, ?_, ?_⟩
  · intro hs e he
    unfold SAGSanitizer.validate_routing at he
    rw [if_neg (by simp [hs])] at he
    rw [List.nil_append] at he
    split at he
    · rw [List.mem_singleton.mp he]
      show ¬ ("UNKNOWN_DESTINATION" : String) = "UNKNOWN_SOURCE"
      decide
    · simp at he
  · intro hd e he
    unfold SAGSanitizer.validate_routing at he
    rcases List.mem_append.mp he with h1 | h1
    · split at h1
      · rw [List.mem_singleton.mp h1]
        show ¬ ("UNKNOWN_SOURCE" : String) = "UNKNOWN_DESTINATION"
        decide
      · simp at h1
    · split at h1
      · rename_i hcond
        exact absurd hd hcond.1
      · simp at h1
  · intro hs hd
    unfold SAGSanitizer.validate_routing
    rw [if_neg (by simp [hs]), if_neg (by simp [hd])]
    rfl

/-- C10 witness: a message with empty source and destination passes the
routing layer of a registry that knows neither. -/
theorem C10_empty_ids_skip_routing_check_witness :
    ("" : String) = "" ∧
    SAGSanitizer.validate_routing ⟨["alpha"]⟩
      ⟨⟨1, "m1", "", "", 0, none, none⟩, []⟩ = [] :=
  ⟨rfl,
   (C10_empty_ids_skip_routing_check ⟨["alpha"]⟩ ⟨1, "m1", "", "", 0, none, none⟩ []).2.2
     rfl rfl⟩

/-! ### C4 — message-id generation -/

theorem runGenerate_closed (agents : List String) : ∀ c0 : Nat,
    CorrelationEngine.runGenerate agents c0
      = (List.enumFrom (c0 + 1) agents).map (fun p => (p.2 ++ "-" ++ Nat.repr p.1, p.1)) := by
  induction agents with
  | nil => intro c0; simp [CorrelationEngine.runGenerate]
  | cons a rest ih =>
      intro c0
      simp [CorrelationEngine.runGenerate, CorrelationEngine.generate_message_id,
        List.enumFrom, ih (c0 + 1)]

theorem runGenerate_counter_gt (agents : List String) : ∀ (c0 : Nat) (e : String × Nat),
    e ∈ CorrelationEngine.runGenerate agents c0 → c0 < e.2 := by
  induction agents with
  | nil => intro c0 e he; simp [CorrelationEngine.runGenerate] at he
  | cons a rest ih =>
      intro c0 e he
      simp only [CorrelationEngine.runGenerate, CorrelationEngine.generate_message_id,
        List.mem_cons] at he
      rcases he with he | he
      · rw [he]
        simp
      · have := ih (c0 + 1) e he
        omega

theorem runGenerate_counters_pairwise (agents : List String) : ∀ c0 : Nat,
    (CorrelationEngine.runGenerate agents c0).Pairwise (fun x y => x.2 < y.2) := by
  induction agents with
  | nil => intro c0; simp [CorrelationEngine.runGenerate]
  | cons a rest ih =>
      intro c0
      simp only [CorrelationEngine.runGenerate]
      refine List.Pairwise.cons ?_ (ih (c0 + 1))
      intro y hy
      have := runGenerate_counter_gt rest (c0 + 1) y hy
      simp only [CorrelationEngine.generate_message_id]
      omega

theorem runGenerate_shape (agents : List String) : ∀ (c0 : Nat) (e : String × Nat),
    e ∈ CorrelationEngine.runGenerate agents c0 → ∃ a, e.1 = a ++ "-" ++ Nat.repr e.2 := by
  induction agents with
  | nil => intro c0 e he; simp [CorrelationEngine.runGenerate] at he
  | cons a rest ih =>
      intro c0 e he
      simp only [CorrelationEngine.runGenerate, CorrelationEngine.generate_message_id,
        List.mem_cons] at he
      rcases he with he | he
      · exact ⟨a, by rw [he]⟩
      · exact ih (c0 + 1) e he

/-- C4 (amended): `_message_id_counter` is one module-level counter shared
by every `CorrelationEngine` in the process (not a per-engine counter).
For any call sequence threading that counter from any start value:
each call returns `<agentId>-<counter>` where the counters are the
consecutive next values of the shared counter; counter values strictly
increase call over call; and all returned message ids are pairwise
distinct — in particular the ids generated through any single engine are
unique for the engine's lifetime. -/
theorem C4_message_id_generation (agents : List String) (c0 : Nat) :
    CorrelationEngine.runGenerate agents c0
      = (List.enumFrom (c0 + 1) agents).map (fun p => (p.2 ++ "-" ++ Nat.repr p.1, p.1))
    ∧ (CorrelationEngine.runGenerate agents c0).Pairwise (fun x y => x.2 < y.2)
    ∧ (CorrelationEngine.runGenerate agents c0).Pairwise (fun x y => x.1 ≠ y.1) := by
  refine ⟨runGenerate_closed agents c0, runGenerate_counters_pairwise agents c0, ?_⟩
  refine (runGenerate_counters_pairwise agents c0).imp_of_mem ?_
  intro x y hx hy hlt hceq
  obtain ⟨a1, ha1⟩ := runGenerate_shape agents c0 x hx
  obtain ⟨a2, ha2⟩ := runGenerate_shape agents c0 y hy
  have : x.2 = y.2 := message_id_inj a1 a2 x.2 y.2 (by rw [← ha1, ← ha2, hceq])
  omega

/-- C4 counterexample: under the source's shared module-level counter, two
engines ("A" then "B") generate `A-1` then `B-2`; a per-engine counter as
the claim describes (modelled by `specPerEngineRun`, written from the
spec's words) would give `A-1` then `B-1`.  The id sequences differ, so
the claim that each engine has its own counter is false of the code. -/
theorem C4_counterexample :
    CorrelationEngine.runGenerate ["A", "B"] 0 = [("A-1", 1), ("B-2", 2)]
    ∧ CorrelationEngine.specPerEngineRun ["A", "B"] [] = ["A-1", "B-1"]
    ∧ (CorrelationEngine.runGenerate ["A", "B"] 0).map Prod.fst
        ≠ CorrelationEngine.specPerEngineRun ["A", "B"] [] := by
  refine ⟨by decide, by decide, by decide⟩


/-! ### C5 — delta computation -/

/-- C5: `compute_delta(P)` returns exactly those facts whose version
strictly exceeds `versionVector[P]` (0 when P is absent) and whose topic
matches at least one of the patterns P subscribed to, rendered as KNOW
statements and sorted by version ascending. -/
theorem C5_compute_delta_exact (e : KnowledgeEngine) (peerId : String) :
    (∀ k : KnowledgeStatement,
      k ∈ e.compute_delta peerId ↔
        ∃ p ∈ e.facts,
          dictGetD e.versionVectors peerId 0 < p.2.2
          ∧ (dictGetD e.subscribers peerId []).any (fun q => topic_matches q p.1) = true
          ∧ k = ⟨p.1, p.2.1, p.2.2⟩)
    ∧ (e.compute_delta peerId).Pairwise (fun a b => a.version ≤ b.version) := by
  simp only [KnowledgeEngine.compute_delta]
  by_cases hp : dictGetD e.subscribers peerId [] = []
  · rw [if_pos hp]
    constructor
    · intro k
      simp [hp]
    · simp
  · rw [if_neg hp]
    constructor
    · intro k
      simp only [List.mem_mergeSort, List.mem_map, List.mem_filter, Bool.and_eq_true,
        decide_eq_true_eq, gt_iff_lt]
      constructor
      · rintro ⟨p, ⟨hfacts, hgt, hmatch⟩, hk⟩
        exact ⟨p, hfacts, hgt, hmatch, hk.symm⟩
      · rintro ⟨p, hfacts, hgt, hmatch, hk⟩
        exact ⟨p, ⟨hfacts, hgt, hmatch⟩, hk.symm⟩
    · have hs := @List.sorted_mergeSort KnowledgeStatement
        (fun a b => decide (a.version ≤ b.version))
        (by intro a b c h1 h2; simp only [decide_eq_true_eq] at *; omega)
        (by intro a b; simp only [Bool.or_eq_true, decide_eq_true_eq]; omega)
        ((e.facts.filter
          (fun p => decide (p.2.2 > dictGetD e.versionVectors peerId 0)
            && (dictGetD e.subscribers peerId []).any (fun q => topic_matches q p.1))).map
          (fun p => KnowledgeStatement.mk p.1 p.2.1 p.2.2))
      exact hs.imp (fun h => of_decide_eq_true h)

/-! ### C6 — topic pattern semantics -/

theorem topicMatchesL_aStar_eq (l : List Char) :
    topicMatchesL ['a', '.', '*'] l =
      (if (['a', '.', '*'] : List Char) = l then true
       else if ¬ List.isPrefixOf ['a', '.'] l = true then false
       else decide (¬ (l.drop 2).contains '.' = true)) := rfl

theorem topicMatchesL_aDoubleStar_eq (l : List Char) :
    topicMatchesL ['a', '.', '*', '*'] l =
      (if (['a', '.', '*', '*'] : List Char) = l then true
       else (decide (l = ['a']) || List.isPrefixOf ['a', '.'] l)) := rfl

theorem topicMatchesL_midStar_eq (l : List Char) :
    topicMatchesL ['a', '.', '*', '.', 'b'] l =
      (if (['a', '.', '*', '.', 'b'] : List Char) = l then true else false) := rfl

theorem topicMatchesL_doubleStar (l : List Char) : topicMatchesL ['*', '*'] l = true := by
  unfold topicMatchesL
  by_cases h : (['*', '*'] : List Char) = l
  · rw [if_pos h]
  · rw [if_neg h, if_pos rfl]

theorem topicMatchesL_aStar_iff (l : List Char) :
    topicMatchesL ['a', '.', '*'] l = true ↔ ∃ r, l = ['a', '.'] ++ r ∧ '.' ∉ r := by
  rw [topicMatchesL_aStar_eq]
  by_cases h1 : (['a', '.', '*'] : List Char) = l
  · rw [if_pos h1]
    simp only [true_iff]
    exact ⟨['*'], h1.symm, by decide⟩
  · rw [if_neg h1]
    by_cases h2 : List.isPrefixOf ['a', '.'] l = true
    · rw [if_neg (by simpa using h2)]
      obtain ⟨r, hr⟩ := List.isPrefixOf_iff_prefix.mp h2
      subst hr
      have hdrop : ((['a', '.'] ++ r).drop 2) = r := by simp
      constructor
      · intro hc
        simp only [decide_eq_true_eq, hdrop] at hc
        refine ⟨r, rfl, ?_⟩
        intro hm
        exact hc (List.elem_eq_true_of_mem hm)
      · rintro ⟨r', hr', hn⟩
        have hrr : r = r' := List.append_cancel_left hr'
        subst hrr
        simp only [decide_eq_true_eq, hdrop]
        intro hc
        exact hn (List.elem_iff.mp hc)
    · rw [if_pos (by simpa using h2)]
      constructor
      · intro hc
        exact absurd hc (by simp)
      · rintro ⟨r, hr, -⟩
        exact absurd (List.isPrefixOf_iff_prefix.mpr ⟨r, hr.symm⟩) h2

theorem topicMatchesL_aDoubleStar_iff (l : List Char) :
    topicMatchesL ['a', '.', '*', '*'] l = true ↔ (l = ['a'] ∨ ∃ r, l = ['a', '.'] ++ r) := by
  rw [topicMatchesL_aDoubleStar_eq]
  by_cases h1 : (['a', '.', '*', '*'] : List Char) = l
  · rw [if_pos h1]
    simp only [true_iff]
    exact Or.inr ⟨['*', '*'], h1.symm⟩
  · rw [if_neg h1]
    simp only [Bool.or_eq_true, decide_eq_true_eq, List.isPrefixOf_iff_prefix]
    constructor
    · rintro (h | ⟨r, hr⟩)
      · exact Or.inl h
      · exact Or.inr ⟨r, hr.symm⟩
    · rintro (h | ⟨r, hr⟩)
      · exact Or.inl h
      · exact Or.inr ⟨r, hr.symm⟩

theorem topicMatchesL_midStar_iff (l : List Char) :
    topicMatchesL ['a', '.', '*', '.', 'b'] l = true ↔ l = ['a', '.', '*', '.', 'b'] := by
  rw [topicMatchesL_midStar_eq]
  by_cases h1 : (['a', '.', '*', '.', 'b'] : List Char) = l
  · rw [if_pos h1]
    simp [h1.symm]
  · rw [if_neg h1]
    simp [Ne.symm h1]

/-- C6 (amended): `matches("**", t)` holds for every topic; `matches("a.*",
t)` holds iff `t` is `"a."` followed by exactly one (possibly empty)
dot-free segment; `matches("a.**", t)` holds iff `t` is `"a"` or begins
with `"a."`; but a `*` in a non-terminal segment is NOT a wildcard: the
source only interprets a bare `**`, a trailing `.**`, and a trailing
`.*`, so a pattern such as `"a.*.b"` matches only the literal topic
`"a.*.b"`. -/
theorem C6_wildcard_semantics :
    (∀ t : String, topic_matches "**" t = true)
    ∧ (∀ t : String, topic_matches "a.*" t = true ↔
        ∃ s : String, t = "a." ++ s ∧ '.' ∉ s.data)
    ∧ (∀ t : String, topic_matches "a.**" t = true ↔
        (t = "a" ∨ ∃ s : String, t = "a." ++ s))
    ∧ (∀ t : String, topic_matches "a.*.b" t = true ↔ t = "a.*.b") := by
  refine ⟨?_, ?_, ?_, ?_⟩
  · intro t
    exact topicMatchesL_doubleStar t.data
  · intro t
    show topicMatchesL ['a', '.', '*'] t.data = true ↔ _
    rw [topicMatchesL_aStar_iff]
    constructor
    · rintro ⟨r, hr, hn⟩
      refine ⟨⟨r⟩, ?_, hn⟩
      apply String.ext
      rw [String.data_append]
      exact hr
    · rintro ⟨s, hs, hn⟩
      refine ⟨s.data, ?_, hn⟩
      have := congrArg String.data hs
      rw [String.data_append] at this
      exact this
  · intro t
    show topicMatchesL ['a', '.', '*', '*'] t.data = true ↔ _
    rw [topicMatchesL_aDoubleStar_iff]
    constructor
    · rintro (h | ⟨r, hr⟩)
      · exact Or.inl (String.ext h)
      · refine Or.inr ⟨⟨r⟩, ?_⟩
        apply String.ext
        rw [String.data_append]
        exact hr
    · rintro (h | ⟨s, hs⟩)
      · exact Or.inl (congrArg String.data h)
      · refine Or.inr ⟨s.data, ?_⟩
        have := congrArg String.data hs
        rw [String.data_append] at this
        exact this
  · intro t
    show topicMatchesL ['a', '.', '*', '.', 'b'] t.data = true ↔ _
    rw [topicMatchesL_midStar_iff]
    constructor
    · intro h
      exact String.ext h
    · intro h
      exact congrArg String.data h

/-- C6 counterexample: the claim says any pattern segment may be `*`,
matching exactly one segment in that position, so `"a.*.b"` would match
`"a.x.b"`; the source returns `false` (non-terminal `*` is literal). -/
theorem C6_counterexample :
    topic_matches "a.*.b" "a.x.b" = false ∧ topic_matches "a.*" "a.x.b" = false := by
  refine ⟨by decide, by decide⟩

/-! ### C7 — expression evaluation failure modes -/

theorem toDouble_ok_of_numeric (v : Value) (h : isNumeric v = true) :
    toDouble v = .ok (numQ v) := by
  cases v <;> simp_all [isNumeric, toDouble, numQ]

theorem toDouble_error_of_not_numeric (v : Value) (h : isNumeric v = false) :
    toDouble v = .error ("Cannot convert to number: " ++ pyStr v) := by
  cases v <;> simp_all [isNumeric, toDouble]

/-- C7 (amended): expression evaluation reports a single evaluation error
on division by zero and on a non-numeric operand of `+ - * /`, and on a
non-null non-numeric operand of `> < >= <=` (Python booleans count as
numeric); but an unresolvable identifier is NOT an error: a dotted path
always evaluates to `context.get(path)`, which is null when the path is
unresolvable, and an ordering comparison with a null operand evaluates to
`false` rather than raising. -/
theorem C7_evaluation_error_modes :
    (∀ l r : Value, isNumeric l = true → isNumeric r = true → numQ r = 0 →
      evaluateArithmetic l r "/" = .error "Division by zero")
    ∧ (∀ (op : String) (l r : Value), (isNumeric l && isNumeric r) = false →
      ∃ msg, evaluateArithmetic l r op = .error msg)
    ∧ (∀ (op : String) (l r : Value), (op = ">" ∨ op = "<" ∨ op = ">=" ∨ op = "<=") →
      l ≠ .vNull → r ≠ .vNull → (isNumeric l && isNumeric r) = false →
      ∃ msg, evaluateRelational l r op = .error msg)
    ∧ (∀ (op : String) (l r : Value), (op = ">" ∨ op = "<" ∨ op = ">=" ∨ op = "<=") →
      (l = .vNull ∨ r = .vNull) → evaluateRelational l r op = .ok false)
    ∧ (∀ (ctx : MapContext) (p : String), evalExpr ctx (.path p) = .ok (MapContext.get ctx p)) := by
  refine ⟨?_, ?_, ?_, ?_, ?_⟩
  · intro l r hl hr hz
    simp [evaluateArithmetic, toDouble_ok_of_numeric l hl, toDouble_ok_of_numeric r hr, hz,
      bind, Except.bind, throw, throwThe, MonadExceptOf.throw]
  · intro op l r hnum
    by_cases hl : isNumeric l = true
    · have hr : isNumeric r = false := by
        rcases hb : isNumeric r with _ | _
        · rfl
        · rw [hl, hb] at hnum; cases hnum
      exact ⟨"Cannot convert to number: " ++ pyStr r,
        by simp [evaluateArithmetic, toDouble_ok_of_numeric l hl,
          toDouble_error_of_not_numeric r hr, bind, Except.bind]⟩
    · have hl' : isNumeric l = false := by
        rcases hb : isNumeric l with _ | _
        · rfl
        · exact absurd hb hl
      exact ⟨"Cannot convert to number: " ++ pyStr l,
        by simp [evaluateArithmetic, toDouble_error_of_not_numeric l hl',
          bind, Except.bind]⟩
  · have key : ∀ (l r : Value) (s : String), l ≠ .vNull → r ≠ .vNull →
        (isNumeric l && isNumeric r) = false →
        (s = ">" ∨ s = "<" ∨ s = ">=" ∨ s = "<=") →
        evaluateRelational l r s = .error ("Cannot compare non-numeric values with " ++ s) := by
      intro l r s hl hr hnum hop
      rcases hop with h | h | h | h <;> subst h <;> simp [evaluateRelational, hl, hr, hnum]
    intro op l r hop hl hr hnum
    exact ⟨_, key l r op hl hr hnum hop⟩
  · intro op l r hop hnull
    rcases hop with h | h | h | h <;> subst h <;>
      simp [evaluateRelational, hnull]
  · intro ctx p
    rfl

/-- C7 counterexample: the claim says every expression containing an
unresolvable dotted path evaluates to an error; in fact `missing.path`
(and a comparison over an unresolved name) evaluates to a value. -/
theorem C7_counterexample :
    ExpressionEvaluator.evaluate "missing.path" [] = .ok .vNull
    ∧ evalExpr [("balance", .vInt 1500)] (.path "unknown") = .ok .vNull
    ∧ ExpressionEvaluator.evaluate "unknown > 1" [] = .ok (.vBool false) := by
  refine ⟨by decide, by decide, by decide⟩

/-- C7 witness: division by zero at concrete numeric operands. -/
theorem C7_witness :
    isNumeric (Value.vInt 1) = true ∧ isNumeric (Value.vInt 0) = true
    ∧ numQ (Value.vInt 0) = 0
    ∧ evaluateArithmetic (Value.vInt 1) (Value.vInt 0) "/" = .error "Division by zero" :=
  ⟨by decide, by decide, by decide,
   C7_evaluation_error_modes.1 (Value.vInt 1) (Value.vInt 0) (by decide) (by decide) (by decide)⟩

/-! ### C9 — guardrail precondition gating -/

theorem strContainsL_head_mem (s : List Char) (c : Char) (cs : List Char)
    (h : strContainsL s (c :: cs) = true) : c ∈ s := by
  unfold strContainsL at h
  obtain ⟨i, _, hpre⟩ := List.any_eq_true.mp h
  obtain ⟨t, ht⟩ := List.isPrefixOf_iff_prefix.mp hpre
  have hc : c ∈ s.drop i := by
    rw [← ht]
    simp
  exact List.mem_of_mem_drop hc

theorem isExpression_not_blank (r : String) (h : isExpression r = true) :
    stripIsEmpty r = false := by
  have hc : ∃ c, c ∈ r.toList ∧ c.isWhitespace = false := by
    unfold isExpression at h
    simp only [Bool.or_eq_true] at h
    rcases h with ((((((h | h) | h) | h) | h) | h) | h) | h
    · exact ⟨'>', strContainsL_head_mem r.toList '>' [] h, by decide⟩
    · exact ⟨'<', strContainsL_head_mem r.toList '<' [] h, by decide⟩
    · exact ⟨'=', strContainsL_head_mem r.toList '=' ['='] h, by decide⟩
    · exact ⟨'!', strContainsL_head_mem r.toList '!' ['='] h, by decide⟩
    · exact ⟨'>', strContainsL_head_mem r.toList '>' ['='] h, by decide⟩
    · exact ⟨'<', strContainsL_head_mem r.toList '<' ['='] h, by decide⟩
    · exact ⟨'&', strContainsL_head_mem r.toList '&' ['&'] h, by decide⟩
    · exact ⟨'|', strContainsL_head_mem r.toList '|' ['|'] h, by decide⟩
  obtain ⟨c, hm, hw⟩ := hc
  rw [Bool.eq_false_iff]
  intro hall
  unfold stripIsEmpty at hall
  have := List.all_eq_true.mp hall c hm
  rw [this] at hw
  cases hw

/-- C9: for an action whose `reason` contains one of the eight expression
operators, the guardrail evaluates the reason against the supplied
context: a false boolean result yields `PRECONDITION_FAILED`, a true
boolean or any non-null non-boolean result passes, and a reason with none
of the operators passes unconditionally.  Concretely, with context
`{balance: 1500}` the reason `balance>1000` produces no guardrail error
while `balance>2000` produces exactly one GUARDRAIL error with code
`PRECONDITION_FAILED`. -/
theorem C9_guardrail_semantics :
    (∀ (ctx : MapContext) (r : String), isExpression r = true →
      ExpressionEvaluator.evaluate r ctx = .ok (.vBool false) →
      GuardrailValidator.validate (some r) ctx =
        .failure "PRECONDITION_FAILED" ("Precondition not met: " ++ r))
    ∧ (∀ (ctx : MapContext) (r : String), isExpression r = true →
      ExpressionEvaluator.evaluate r ctx = .ok (.vBool true) →
      GuardrailValidator.validate (some r) ctx = .success)
    ∧ (∀ (ctx : MapContext) (r : String) (v : Value), isExpression r = true →
      ExpressionEvaluator.evaluate r ctx = .ok v → v ≠ .vNull → (∀ b, v ≠ .vBool b) →
      GuardrailValidator.validate (some r) ctx = .success)
    ∧ (∀ (ctx : MapContext) (r : String), isExpression r = false →
      GuardrailValidator.validate (some r) ctx = .success)
    ∧ SAGSanitizer.validate_guardrails [("balance", .vInt 1500)]
        ⟨⟨1, "m1", "svc1", "svc2", 0, none, none⟩,
         [.action "withdraw" [] [] none none none (some "balance>1000")]⟩ = []
    ∧ SAGSanitizer.validate_guardrails [("balance", .vInt 1500)]
        ⟨⟨1, "m1", "svc1", "svc2", 0, none, none⟩,
         [.action "withdraw" [] [] none none none (some "balance>2000")]⟩ =
        [⟨.GUARDRAIL, "PRECONDITION_FAILED", "Precondition not met: balance>2000"⟩] := by
  refine ⟨?_, ?_, ?_, ?_, by decide, by decide⟩
  · intro ctx r hexp heval
    simp [GuardrailValidator.validate, isExpression_not_blank r hexp, hexp, heval]
  · intro ctx r hexp heval
    simp [GuardrailValidator.validate, isExpression_not_blank r hexp, hexp, heval]
  · intro ctx r v hexp heval hnull hbool
    cases v with
    | vNull => exact absurd rfl hnull
    | vBool b => exact absurd rfl (hbool b)
    | _ => simp [GuardrailValidator.validate, isExpression_not_blank r hexp, hexp, heval]
  · intro ctx r hexp
    simp [GuardrailValidator.validate, hexp]

/-- C9 witness: the failing concrete case, via the theorem's first
conjunct. -/
theorem C9_witness :
    isExpression "balance>2000" = true
    ∧ ExpressionEvaluator.evaluate "balance>2000" [("balance", .vInt 1500)] = .ok (.vBool false)
    ∧ GuardrailValidator.validate (some "balance>2000") [("balance", .vInt 1500)] =
        .failure "PRECONDITION_FAILED" ("Precondition not met: " ++ "balance>2000") :=
  ⟨by decide, by decide,
   C9_guardrail_semantics.1 [("balance", .vInt 1500)] "balance>2000" (by decide) (by decide)⟩

/-! ### C3 — checkpoint round-trip -/

theorem decodeFacts_encode (fs : List (String × Value × Int)) :
    CheckpointManager.decodeFacts
      (fs.map (fun f => (f.1, Value.vList [f.2.1, Value.vInt f.2.2]))) = some fs := by
  induction fs with
  | nil => rfl
  | cons f fs ih =>
      obtain ⟨t, v, ver⟩ := f
      simp [CheckpointManager.decodeFacts, CheckpointManager.decodeFact, ih, bind, Option.bind]

theorem decodeSnaps_encode (snaps : List (String × NodeSnapshot)) :
    CheckpointManager.decodeSnaps (snaps.map (fun p =>
      (p.1,
       ({ agent_id := p.2.agent_id
          role := p.2.role
          facts := p.2.facts.map (fun f => (f.1, Value.vList [f.2.1, Value.vInt f.2.2]))
          local_version := p.2.local_version
          correlation_state := p.2.correlation_state } : NodeSnapshotJson)))) = some snaps := by
  induction snaps with
  | nil => rfl
  | cons s rest ih =>
      obtain ⟨sid, snap⟩ := s
      simp [CheckpointManager.decodeSnaps, decodeFacts_encode, ih, bind, Option.bind]

theorem dict_to_meta_meta_to_dict (m : CheckpointMeta) :
    CheckpointManager.dict_to_meta (CheckpointManager.meta_to_dict m) = some m := by
  unfold CheckpointManager.dict_to_meta CheckpointManager.meta_to_dict
  simp only [decodeSnaps_encode m.node_snapshots, bind, Option.bind]
  rfl

theorem find_map_self {β : Type} (nodes : List AgentNode) (f : AgentNode → β)
    (hnd : (nodes.map (·.agentId)).Nodup) (x : AgentNode) (hx : x ∈ nodes) :
    dictGet (nodes.map (fun n => (n.agentId, f n))) x.agentId = some (f x) := by
  induction nodes with
  | nil => cases hx
  | cons m rest ih =>
      simp only [List.map_cons, List.nodup_cons] at hnd
      rcases List.mem_cons.mp hx with h | h
      · subst h
        simp [dictGet, List.find?]
      · have hne : ¬ (m.agentId = x.agentId) := by
          intro he
          exact hnd.1 (he ▸ List.mem_map.mpr ⟨x, h, rfl⟩)
        have := ih hnd.2 h
        simp only [dictGet, List.map_cons, List.find?] at this ⊢
        rw [decide_eq_false hne]
        exact this

/-- C3: for every tree state (with the tree invariant of globally unique
agent ids), restoring the loaded image of a saved checkpoint — i.e.
`restore(dict_to_meta(meta_to_dict(save(state))))`, where the JSON
encode/decode pair is the on-disk round-trip — yields the identical tree
state: every node's fact map, `localVersion`, and correlation state equal
those captured at save time. -/
theorem C3_checkpoint_roundtrip (tree : TreeEngine) (task : String)
    (messages : List Message) (agentsRun currentLevel totalLevels : Int)
    (cid : String) (ts : Int)
    (hnd : (tree.nodes.map (·.agentId)).Nodup) :
    (CheckpointManager.dict_to_meta (CheckpointManager.meta_to_dict
      (CheckpointManager.save tree task messages agentsRun currentLevel totalLevels cid ts))).map
      (fun meta => CheckpointManager.restore meta tree) = some tree := by
  rw [dict_to_meta_meta_to_dict]
  simp only [Option.map_some']
  unfold CheckpointManager.restore CheckpointManager.save
  have hpatch : ∀ n ∈ tree.nodes,
      (fun n => match dictGet (tree.nodes.map (fun n =>
          (n.agentId,
           ({ agent_id := n.agentId
              role := n.role
              facts := n.knowledge.get_all_facts
              local_version := n.knowledge.get_local_version
              correlation_state := n.correlation.get_state } : NodeSnapshot)))) n.agentId with
       | none => n
       | some s =>
          { n with
            knowledge := n.knowledge.load_state s.facts s.local_version
            correlation := n.correlation.load_state s.correlation_state }) n = n := by
    intro n hn
    beta_reduce
    rw [find_map_self tree.nodes _ hnd n hn]
    rfl
  rw [List.map_congr_left hpatch]
  simp

/-- C3 witness: a two-node tree round-trips through a checkpoint. -/
theorem C3_checkpoint_roundtrip_witness :
    ((TreeEngine.mk
      [⟨"root", "coordinator", KnowledgeEngine.init "root", CorrelationEngine.init "root"⟩,
       ⟨"w1", "worker", ((KnowledgeEngine.init "w1").assert_fact "t" (.vInt 1)).2,
        CorrelationEngine.init "w1"⟩]).nodes.map (·.agentId)).Nodup
    ∧ (CheckpointManager.dict_to_meta (CheckpointManager.meta_to_dict
        (CheckpointManager.save (TreeEngine.mk
          [⟨"root", "coordinator", KnowledgeEngine.init "root", CorrelationEngine.init "root"⟩,
           ⟨"w1", "worker", ((KnowledgeEngine.init "w1").assert_fact "t" (.vInt 1)).2,
            CorrelationEngine.init "w1"⟩])
          "task" [] 0 0 1 "cp1" 42))).map
        (fun meta => CheckpointManager.restore meta (TreeEngine.mk
          [⟨"root", "coordinator", KnowledgeEngine.init "root", CorrelationEngine.init "root"⟩,
           ⟨"w1", "worker", ((KnowledgeEngine.init "w1").assert_fact "t" (.vInt 1)).2,
            CorrelationEngine.init "w1"⟩]))
      = some (TreeEngine.mk
          [⟨"root", "coordinator", KnowledgeEngine.init "root", CorrelationEngine.init "root"⟩,
           ⟨"w1", "worker", ((KnowledgeEngine.init "w1").assert_fact "t" (.vInt 1)).2,
            CorrelationEngine.init "w1"⟩]) :=
  ⟨by decide,
   C3_checkpoint_roundtrip _ "task" [] 0 0 1 "cp1" 42 (by decide)⟩
/-! ### C8 — grove bottom-up execution order -/


mutual

theorem treeDepths_shift : ∀ (t : ATree) (k : Nat),
    treeDepths t k = (treeDepths t 0).map (fun p => (p.1, p.2 + k))
  | .node i cs, k => by
      simp only [treeDepths, List.map_cons, Nat.zero_add]
      rw [forestDepths_shift cs (k + 1), forestDepths_shift cs 1, List.map_map]
      refine congrArg _ (List.map_congr_left ?_)
      intro p _
      simp only [Function.comp_apply]
      rw [(by omega : p.2 + (k + 1) = p.2 + 1 + k)]

theorem forestDepths_shift : ∀ (cs : List ATree) (k : Nat),
    forestDepths cs k = (forestDepths cs 0).map (fun p => (p.1, p.2 + k))
  | [], _ => rfl
  | c :: cs, k => by
      simp only [forestDepths, List.map_append]
      rw [treeDepths_shift c k, forestDepths_shift cs k]

end

theorem flatMap_children (cs : List ATree) (d : Nat) :
    (cs.map (fun c => (c, d))).flatMap (fun p => treeDepths p.1 p.2) = forestDepths cs d := by
  induction cs with
  | nil => rfl
  | cons c cs ih => simp [forestDepths, ih]

theorem bfs_perm : ∀ (q : List (ATree × Nat)),
    (bfs q).Perm (q.flatMap (fun p => treeDepths p.1 p.2)) := by
  intro q
  generalize hsz : queueSize q = n
  induction n using Nat.strong_induction_on generalizing q with
  | _ n ih =>
    cases q with
    | nil => simp [bfs]
    | cons p q' =>
        obtain ⟨t, dpt⟩ := p
        obtain ⟨i, cs⟩ := t
        rw [bfs]
        subst hsz
        have hlt : queueSize (q' ++ cs.map (fun c => (c, dpt + 1)))
            < queueSize ((ATree.node i cs, dpt) :: q') := by
          simp only [queueSize, queueSize_append, queueSize_map_children, ATree.size]
          omega
        have hper := ih _ hlt (q' ++ cs.map (fun c => (c, dpt + 1))) rfl
        simp only [List.flatMap_cons, treeDepths, List.cons_append]
        refine List.Perm.cons _ ?_
        refine hper.trans ?_
        rw [List.flatMap_append, flatMap_children]
        exact List.perm_append_comm

theorem forestDepths_depth_ge (cs : List ATree) (k : Nat) (x : String) (dx : Nat)
    (h : (x, dx) ∈ forestDepths cs k) : k ≤ dx := by
  rw [forestDepths_shift] at h
  obtain ⟨p, _, he⟩ := List.mem_map.mp h
  have : dx = p.2 + k := (Prod.mk.injEq _ _ _ _ ▸ he).2.symm
  omega

mutual

theorem subtree_embed : ∀ (t s : ATree), s ∈ subtreesOf t →
    ∃ off, ∀ x dx, (x, dx) ∈ treeDepths s 0 → (x, dx + off) ∈ treeDepths t 0
  | .node i cs, s, hs => by
      rw [subtreesOf] at hs
      rcases List.mem_cons.mp hs with h | h
      · refine ⟨0, fun x dx hx => ?_⟩
        rw [← h]
        simpa using hx
      · obtain ⟨off, hoff⟩ := forest_embed cs s h
        refine ⟨off + 1, fun x dx hx => ?_⟩
        have h1 := hoff x dx hx
        simp only [treeDepths, List.mem_cons]
        right
        rw [(by omega : dx + (off + 1) = dx + off + 1)]
        exact h1

theorem forest_embed : ∀ (cs : List ATree) (s : ATree), s ∈ forestSubtrees cs →
    ∃ off, ∀ x dx, (x, dx) ∈ treeDepths s 0 → (x, dx + off + 1) ∈ forestDepths cs 1
  | [], s, hs => by
      rw [forestSubtrees] at hs
      cases hs
  | c :: cs, s, hs => by
      rw [forestSubtrees] at hs
      rcases List.mem_append.mp hs with h | h
      · obtain ⟨off, hoff⟩ := subtree_embed c s h
        refine ⟨off, fun x dx hx => ?_⟩
        have h1 := hoff x dx hx
        have h2 : (x, dx + off + 1) ∈ treeDepths c 1 := by
          rw [treeDepths_shift c 1]
          exact List.mem_map.mpr ⟨(x, dx + off), h1, rfl⟩
        simp only [forestDepths, List.mem_append]
        exact Or.inl h2
      · obtain ⟨off, hoff⟩ := forest_embed cs s h
        refine ⟨off, fun x dx hx => ?_⟩
        simp only [forestDepths, List.mem_append]
        exact Or.inr (hoff x dx hx)

end

theorem ancestor_depths (t : ATree) (d a : String) (h : AncestorOf t d a) :
    ∃ dd da, (d, dd) ∈ treeDepths t 0 ∧ (a, da) ∈ treeDepths t 0 ∧ dd < da := by
  obtain ⟨s, hs, hsid, ha⟩ := h
  obtain ⟨off, hoff⟩ := subtree_embed t s hs
  have hhead : (s.id, 0) ∈ treeDepths s 0 := by
    obtain ⟨i, cs⟩ := s
    simp [treeDepths, ATree.id]
  have hd : (d, off) ∈ treeDepths t 0 := by
    have := hoff s.id 0 hhead
    rw [hsid] at this
    simpa using this
  obtain ⟨p, hmem, hfst⟩ := List.mem_map.mp ha
  obtain ⟨a', da'⟩ := p
  have hge := forestDepths_depth_ge s.children 1 a' da' hmem
  have hin : (a', da') ∈ treeDepths s 0 := by
    obtain ⟨i, cs⟩ := s
    simp only [ATree.children] at hmem
    simp only [treeDepths]
    exact List.mem_cons_of_mem _ hmem
  have ha2 : (a, da' + off) ∈ treeDepths t 0 := by
    have := hoff a' da' hin
    simp only at hfst
    rw [hfst] at this
    exact this
  exact ⟨off, da' + off, hd, ha2, by omega⟩

theorem depthMap_perm (t : ATree) : (depthMap t).Perm (treeDepths t 0) := by
  have := bfs_perm [(t, 0)]
  simpa [depthMap] using this

theorem depth_unique (dm : List (String × Nat)) (hnd : (dm.map Prod.fst).Nodup)
    (x : String) (d1 d2 : Nat) (h1 : (x, d1) ∈ dm) (h2 : (x, d2) ∈ dm) : d1 = d2 := by
  induction dm with
  | nil => cases h1
  | cons p rest ih =>
      simp only [List.map_cons, List.nodup_cons] at hnd
      rcases List.mem_cons.mp h1 with e1 | e1 <;> rcases List.mem_cons.mp h2 with e2 | e2
      · rw [← e1] at e2
        exact ((Prod.mk.injEq _ _ _ _ ▸ e2).2).symm
      · exfalso
        apply hnd.1
        rw [← e1]
        exact List.mem_map.mpr ⟨(x, d2), e2, rfl⟩
      · exfalso
        apply hnd.1
        rw [← e2]
        exact List.mem_map.mpr ⟨(x, d1), e1, rfl⟩
      · exact ih hnd.2 e1 e2

theorem foldl_max_ge_init (l : List Nat) : ∀ a, a ≤ l.foldl max a := by
  induction l with
  | nil => intro a; simp
  | cons b l ih =>
      intro a
      have h1 : a ≤ max a b := Nat.le_max_left a b
      exact le_trans h1 (ih (max a b))

theorem foldl_max_le (l : List Nat) : ∀ (a x : Nat), x ∈ l → x ≤ l.foldl max a := by
  induction l with
  | nil => intro a x h; cases h
  | cons b l ih =>
      intro a x h
      rcases List.mem_cons.mp h with e | e
      · subst e
        exact le_trans (Nat.le_max_right a x) (foldl_max_ge_init l (max a x))
      · exact ih (max a b) x e

theorem done_mem_block (a : String) (lvl : List String) :
    (GroveEvent.done a ∈ lvl.flatMap (fun i => [GroveEvent.start i, GroveEvent.done i]))
      ↔ a ∈ lvl := by
  simp [List.mem_flatMap]

theorem start_mem_block (d : String) (lvl : List String) :
    (GroveEvent.start d ∈ lvl.flatMap (fun i => [GroveEvent.start i, GroveEvent.done i]))
      ↔ d ∈ lvl := by
  simp [List.mem_flatMap]

theorem mem_lvlFn (dm : List (String × Nat)) (x : String) (dlev : Nat) :
    x ∈ (dm.filter (fun p => p.2 = dlev)).map Prod.fst ↔ (x, dlev) ∈ dm := by
  constructor
  · intro h
    obtain ⟨p, hp, hfst⟩ := List.mem_map.mp h
    have hf := List.mem_filter.mp hp
    have hsnd : p.2 = dlev := by simpa using hf.2
    have : p = (x, dlev) := by
      obtain ⟨p1, p2⟩ := p
      simp only at hfst hsnd
      rw [hfst, hsnd]
    rw [← this]
    exact hf.1
  · intro h
    refine List.mem_map.mpr ⟨(x, dlev), List.mem_filter.mpr ⟨h, by simp⟩, rfl⟩

theorem split_index {α : Type} (A B : List α) (e1 e2 : α)
    (h1B : e1 ∉ B) (h2A : e2 ∉ A) :
    ∀ (i j : Nat), (A ++ B)[i]? = some e1 → (A ++ B)[j]? = some e2 → i < j := by
  intro i j hi hj
  by_cases hiA : i < A.length
  · by_cases hjA : j < A.length
    · rw [List.getElem?_append_left hjA] at hj
      exact absurd (List.getElem?_mem hj) h2A
    · omega
  · push_neg at hiA
    rw [List.getElem?_append_right hiA] at hi
    exact absurd (List.getElem?_mem hi) h1B

/-- C8: Grove.execute processes levels bottom-up: for a grove tree with
distinct node ids, whenever `d` is a strict ancestor of `a`, the execution
trace contains the completion event of the descendant `a` strictly before
the start event of the ancestor `d` (so every descendant finishes before
any of its ancestors begins). -/
theorem C8_grove_bottom_up_order (t : ATree) (d a : String)
    (hnd : ((treeDepths t 0).map Prod.fst).Nodup)
    (hanc : AncestorOf t d a) :
    GroveEvent.done a ∈ Grove.executeTrace t
    ∧ GroveEvent.start d ∈ Grove.executeTrace t
    ∧ ∀ (i j : Nat), (Grove.executeTrace t)[i]? = some (GroveEvent.done a) →
        (Grove.executeTrace t)[j]? = some (GroveEvent.start d) → i < j := by
  obtain ⟨dd, da, hdd, hda, hlt⟩ := ancestor_depths t d a hanc
  have hperm := depthMap_perm t
  have hdm_nodup : ((depthMap t).map Prod.fst).Nodup :=
    ((hperm.map Prod.fst).nodup_iff).mpr hnd
  have hdd' : (d, dd) ∈ depthMap t := hperm.mem_iff.mpr hdd
  have hda' : (a, da) ∈ depthMap t := hperm.mem_iff.mpr hda
  have hda_le : da ≤ maxDepth t :=
    foldl_max_le _ 0 da (List.mem_map.mpr ⟨(a, da), hda', rfl⟩)
  have hsplit : List.range' 0 (maxDepth t + 1)
      = List.range' 0 (dd + 1) ++ List.range' (dd + 1) (maxDepth t - dd) := by
    have hc : (maxDepth t - dd) + (dd + 1) = maxDepth t + 1 := by omega
    rw [← hc, ← List.range'_append_1 0 (dd + 1) (maxDepth t - dd)]
    norm_num
  have htrace : Grove.executeTrace t
      = (List.range' (dd + 1) (maxDepth t - dd)).reverse.flatMap
          (fun dlev => (((depthMap t).filter (fun p => p.2 = dlev)).map Prod.fst).flatMap
            (fun i => [GroveEvent.start i, GroveEvent.done i]))
        ++ (List.range' 0 (dd + 1)).reverse.flatMap
          (fun dlev => (((depthMap t).filter (fun p => p.2 = dlev)).map Prod.fst).flatMap
            (fun i => [GroveEvent.start i, GroveEvent.done i])) := by
    unfold Grove.executeTrace levelsBottomUp
    rw [← List.map_reverse, List.flatMap_map, List.range_eq_range', hsplit,
      List.reverse_append, List.flatMap_append]
  have h_done_in_A : GroveEvent.done a ∈
      (List.range' (dd + 1) (maxDepth t - dd)).reverse.flatMap
        (fun dlev => (((depthMap t).filter (fun p => p.2 = dlev)).map Prod.fst).flatMap
          (fun i => [GroveEvent.start i, GroveEvent.done i])) := by
    refine List.mem_flatMap.mpr ⟨da, ?_, ?_⟩
    · rw [List.mem_reverse, List.mem_range'_1]
      omega
    · exact (done_mem_block a _).mpr ((mem_lvlFn _ a da).mpr hda')
  have h_start_in_B : GroveEvent.start d ∈
      (List.range' 0 (dd + 1)).reverse.flatMap
        (fun dlev => (((depthMap t).filter (fun p => p.2 = dlev)).map Prod.fst).flatMap
          (fun i => [GroveEvent.start i, GroveEvent.done i])) := by
    refine List.mem_flatMap.mpr ⟨dd, ?_, ?_⟩
    · rw [List.mem_reverse, List.mem_range'_1]
      omega
    · exact (start_mem_block d _).mpr ((mem_lvlFn _ d dd).mpr hdd')
  have h_done_notin_B : GroveEvent.done a ∉
      (List.range' 0 (dd + 1)).reverse.flatMap
        (fun dlev => (((depthMap t).filter (fun p => p.2 = dlev)).map Prod.fst).flatMap
          (fun i => [GroveEvent.start i, GroveEvent.done i])) := by
    intro hmem
    obtain ⟨dlev, hdlev, hblk⟩ := List.mem_flatMap.mp hmem
    rw [List.mem_reverse, List.mem_range'_1] at hdlev
    have hin : (a, dlev) ∈ depthMap t := (mem_lvlFn _ a dlev).mp ((done_mem_block a _).mp hblk)
    have : dlev = da := depth_unique _ hdm_nodup a dlev da hin hda'
    omega
  have h_start_notin_A : GroveEvent.start d ∉
      (List.range' (dd + 1) (maxDepth t - dd)).reverse.flatMap
        (fun dlev => (((depthMap t).filter (fun p => p.2 = dlev)).map Prod.fst).flatMap
          (fun i => [GroveEvent.start i, GroveEvent.done i])) := by
    intro hmem
    obtain ⟨dlev, hdlev, hblk⟩ := List.mem_flatMap.mp hmem
    rw [List.mem_reverse, List.mem_range'_1] at hdlev
    have hin : (d, dlev) ∈ depthMap t := (mem_lvlFn _ d dlev).mp ((start_mem_block d _).mp hblk)
    have : dlev = dd := depth_unique _ hdm_nodup d dlev dd hin hdd'
    omega
  refine ⟨?_, ?_, ?_⟩
  · rw [htrace]
    exact List.mem_append.mpr (Or.inl h_done_in_A)
  · rw [htrace]
    exact List.mem_append.mpr (Or.inr h_start_in_B)
  · intro i j hi hj
    rw [htrace] at hi hj
    exact split_index _ _ _ _ h_done_notin_B h_start_notin_A i j hi hj

theorem C8_grove_bottom_up_order_witness :
    ((treeDepths (ATree.node "root" [ATree.node "lead" [ATree.node "w1" [], ATree.node "w2" []]]) 0).map Prod.fst).Nodup
    ∧ AncestorOf (ATree.node "root" [ATree.node "lead" [ATree.node "w1" [], ATree.node "w2" []]]) "root" "w1"
    ∧ (GroveEvent.done "w1" ∈ Grove.executeTrace (ATree.node "root" [ATree.node "lead" [ATree.node "w1" [], ATree.node "w2" []]])
       ∧ GroveEvent.start "root" ∈ Grove.executeTrace (ATree.node "root" [ATree.node "lead" [ATree.node "w1" [], ATree.node "w2" []]])
       ∧ ∀ (i j : Nat),
           (Grove.executeTrace (ATree.node "root" [ATree.node "lead" [ATree.node "w1" [], ATree.node "w2" []]]))[i]? = some (GroveEvent.done "w1") →
           (Grove.executeTrace (ATree.node "root" [ATree.node "lead" [ATree.node "w1" [], ATree.node "w2" []]]))[j]? = some (GroveEvent.start "root") → i < j) :=
  ⟨by decide, by decide,
    C8_grove_bottom_up_order _ "root" "w1" (by decide) (by decide)⟩
